import Mathlib

/-!
Verification of the span/citation/extraction pipeline of the ifrs-documents
repository against its natural-language specification.

The TypeScript sources are shallowly embedded as executable Lean definitions:
JS strings become `String`/`List Char`, JS numbers used for pages and step
numbers become `Int`, confidences (compared but never arithmetically combined)
become `ℚ`, and JS arrays become `List`.  Impure boundaries (the LLM call,
`ulid()` id generation) are passed in as explicit oracle parameters.
-/

/-! ## Generic helpers -/

/-- First-occurrence deduplication with an explicit seen accumulator.
Models the iteration order of a JS `Set` (insertion order, first occurrence
kept). -/
def setDedupAux {α : Type} [DecidableEq α] : List α → List α → List α
  | [], _ => []
  | x :: xs, seen =>
    if x ∈ seen then setDedupAux xs seen else x :: setDedupAux xs (x :: seen)

/-- Deduplicate a list keeping the first occurrence of each element, in order;
the semantics of `[...new Set(l)]` in JS. -/
def setDedup {α : Type} [DecidableEq α] (l : List α) : List α := setDedupAux l []

/-! ## Citation formatting (packages/core/src/citations.ts) -/

/-- Embedding of the `SpanCitation` interface. -/
structure SpanCitation where
  span_id : String
  title : String
  page : Int
deriving DecidableEq

/-- Embedding of the `CitationGroup` interface. -/
structure CitationGroup where
  title : String
  pages : List Int
deriving DecidableEq

/-- Embedding of the `PageRange` interface; the source field `end` is a Lean
keyword, written `stop` here. -/
structure PageRange where
  start : Int
  stop : Int
deriving DecidableEq

/-- Pages of all citations carrying a given title, in input order.  In the
source the pages are accumulated in a `Map` keyed by title; for a fixed title
the accumulated list is exactly the pages of the matching citations in input
order. -/
def pagesOfTitle (citations : List SpanCitation) (t : String) : List Int :=
  (citations.filter (fun c => c.title == t)).map (·.page)

/-- Distinct titles in order of first appearance; this is the iteration order
of the source's `Map` (JS `Map` iterates in key-insertion order). -/
def titlesInOrder (citations : List SpanCitation) : List String :=
  setDedup (citations.map (·.title))

/-- Embedding of `groupSpansByTitle`: group by title in first-appearance
order, then `[...new Set(pages)].sort((a, b) => a - b)` deduplicates each
group's pages and sorts them ascending. -/
def groupSpansByTitle (citations : List SpanCitation) : List CitationGroup :=
  (titlesInOrder citations).map
    (fun t => ⟨t, List.insertionSort (· ≤ ·) (setDedup (pagesOfTitle citations t))⟩)

/-- Loop body of `collapsePageRanges`: `s`/`e` are the source's
`currentStart`/`currentEnd` accumulator variables. -/
def collapseAux (s e : Int) : List Int → List PageRange
  | [] => [⟨s, e⟩]
  | p :: rest =>
    if p = e + 1 then collapseAux s p rest else ⟨s, e⟩ :: collapseAux p p rest

/-- Embedding of `collapsePageRanges`: collapse a page list into maximal
contiguous ranges. -/
def collapsePageRanges : List Int → List PageRange
  | [] => []
  | p :: rest => collapseAux p p rest

/-- Rendering of one range, inlined in the source's `formatPageRanges` map
callback: `p.N` for a singleton, `p.N–M` otherwise. -/
def formatPageRange (r : PageRange) : String :=
  if r.start = r.stop then "p." ++ toString r.start
  else "p." ++ toString r.start ++ "–" ++ toString r.stop

/-- Embedding of `formatPageRanges`. -/
def formatPageRanges (ranges : List PageRange) : String :=
  String.intercalate ", " (ranges.map formatPageRange)

/-- Embedding of `formatCitationGroup`. -/
def formatCitationGroup (group : CitationGroup) : String :=
  "\"" ++ group.title ++ "\" " ++ formatPageRanges (collapsePageRanges group.pages)

/-- Embedding of `formatCitations`. -/
def formatCitations (citations : List SpanCitation) : String :=
  String.intercalate "; " ((groupSpansByTitle citations).map formatCitationGroup)

/-- Integers spanned by a range, from `start` to `stop` inclusive (empty only
if the range is ill-formed). -/
def expandRange (r : PageRange) : List Int :=
  (List.range ((r.stop - r.start).toNat + 1)).map (fun i : Nat => r.start + (i : Int))

/-- Concatenated expansion of a list of ranges. -/
def expandRanges : List PageRange → List Int
  | [] => []
  | r :: rs => expandRange r ++ expandRanges rs

/-! ## Quote guard and validation rules (packages/core/src/validation.ts) -/

/-- Scan state machine collecting the lengths of quoted substrings: the state
is `none` outside a quoted run and `some k` inside one, where `k` counts the
characters consumed so far including the opening quote.  A quoted run is
emitted only when its closing quote is found, matching the regex `"[^"]*"`,
so a trailing unmatched opening quote yields nothing. -/
def quotedRunsAux : List Char → Option Nat → List Nat
  | [], _ => []
  | c :: rest, none =>
    if c = '"' then quotedRunsAux rest (some 1) else quotedRunsAux rest none
  | c :: rest, some k =>
    if c = '"' then (k + 1) :: quotedRunsAux rest none
    else quotedRunsAux rest (some (k + 1))

/-- Lengths, delimiters included, of the non-overlapping quoted substrings
found scanning left to right; models `text.match(/"[^"]*"/g)` mapped to
`quote.length`. -/
def quotedRuns (l : List Char) : List Nat := quotedRunsAux l none

/-- Embedding of `hasExcessiveQuotes`: some quoted substring (its two quote
characters included) is strictly longer than `maxQuoteChars`. -/
def hasExcessiveQuotes (text : String) (maxQuoteChars : Nat) : Bool :=
  (quotedRuns text.data).any (fun L => maxQuoteChars < L)

/-- Truthiness of `field?.trim()` in the source's required-field checks: a JS
string trims to the empty (falsy) string exactly when all its characters are
whitespace. -/
def jsBlank (s : String) : Bool := s.data.all (fun c => c.isWhitespace)

/-- Embedding of the `ValidationError` interface; the optional heterogeneous
diagnostic `value` payload is omitted (it is never read back). -/
structure ValidationError where
  field : String
  message : String
deriving DecidableEq

/-- Embedding of the `ValidationResult` interface. -/
structure ValidationResult where
  valid : Bool
  errors : List ValidationError
deriving DecidableEq

/-- Per-unit-type confidence thresholds from the `Config` interface. -/
structure ConfidenceThresholds where
  definitions : ℚ
  claims : ℚ
  functions : ℚ
deriving DecidableEq

/-- Embedding of the `Config` interface restricted to the fields the verified
logic reads; database, S3 and API-credential settings are omitted. -/
structure Config where
  confidence : ConfidenceThresholds
  maxQuoteChars : Nat
deriving DecidableEq

/-- Embedding of the `FunctionStep` interface. -/
structure FunctionStep where
  n : Int
  text : String
deriving DecidableEq

/-- Embedding of the `FunctionDoc` interface restricted to the fields read by
`validateFunction` and the claims (`inputs`, `outputs`, `examples`, `tags`,
`id` and `documentId` are never consulted by the validator). -/
structure FunctionDoc where
  name : String
  purpose : String
  preconditions : List String
  steps : List FunctionStep
  failure_modes : List String
  span_ids : List String
  confidence : ℚ
deriving DecidableEq

/-- Embedding of the `Claim` interface restricted to the fields read by
`validateClaim` (the heterogeneous `qualifiers` map is never consulted). -/
structure Claim where
  subject : String
  predicate : String
  object : String
  span_ids : List String
  confidence : ℚ
deriving DecidableEq

/-- Embedding of the enriched `Definition` shape: the draft fields plus the
enrichment outputs `term_slug`, `aliases_norm` and `tags`. -/
structure Definition where
  id : String
  documentId : String
  term : String
  definition : String
  aliases : List String
  span_ids : List String
  confidence : ℚ
  term_slug : String
  aliases_norm : List String
  tags : List String
deriving DecidableEq

/-- Message of a quote-length validation error, with the configured limit
interpolated. -/
def quoteLengthMessage (maxQuoteChars : Nat) : String :=
  "Text contains quotes longer than " ++ toString maxQuoteChars ++ " characters"

/-- Message of a below-threshold confidence error, with both numbers
interpolated. -/
def confidenceMessage (c t : ℚ) : String :=
  "Confidence " ++ toString c ++ " below threshold " ++ toString t

/-- Message of the step-numbering validation error. -/
def stepNumberMessage : String := "Step numbers must be consecutive starting from 1"

/-- Name-required check of `validateFunction`. -/
def nameErrors (f : FunctionDoc) : List ValidationError :=
  if jsBlank f.name then [⟨"name", "Function name is required"⟩] else []

/-- Purpose checks of `validateFunction`. -/
def purposeErrors (f : FunctionDoc) : List ValidationError :=
  if jsBlank f.purpose then [⟨"purpose", "Function purpose is required"⟩]
  else if 400 < f.purpose.length then
    [⟨"purpose", "Purpose must be ≤ 400 characters"⟩]
  else []

/-- The source's `stepNumbers`: the steps' `n` values sorted ascending with a
numeric comparator. -/
def sortedStepNumbers (f : FunctionDoc) : List Int :=
  List.insertionSort (· ≤ ·) (f.steps.map (·.n))

/-- The source's `expectedNumbers`: `[1, 2, ..., N]` for `N` steps. -/
def expectedStepNumbers (f : FunctionDoc) : List Int :=
  (List.range f.steps.length).map (fun i : Nat => (i : Int) + 1)

/-- Empty-step-text checks of `validateFunction`, with the running index used
in the error's field name. -/
def stepTextErrorsAux : Nat → List FunctionStep → List ValidationError
  | _, [] => []
  | i, s :: rest =>
    (if jsBlank s.text then
      [⟨"steps[" ++ toString i ++ "].text", "Step text cannot be empty"⟩]
    else []) ++ stepTextErrorsAux (i + 1) rest

/-- Step checks of `validateFunction`: non-empty, numbering exactly `1..N`,
and no empty step text. -/
def stepsErrors (f : FunctionDoc) : List ValidationError :=
  if f.steps = [] then [⟨"steps", "At least one step is required"⟩]
  else
    (if sortedStepNumbers f = expectedStepNumbers f then []
     else [⟨"steps", stepNumberMessage⟩]) ++ stepTextErrorsAux 0 f.steps

/-- Span-id presence check shared by the three validators. -/
def spanIdErrors (spanIds : List String) : List ValidationError :=
  if spanIds = [] then
    [⟨"span_ids", "At least one span_id is required for citations"⟩]
  else []

/-- Confidence-threshold check shared by the three validators. -/
def confidenceErrors (c threshold : ℚ) : List ValidationError :=
  if c < threshold then [⟨"confidence", confidenceMessage c threshold⟩] else []

/-- Quote checks with the source's `if (field && hasExcessiveQuotes(...))`
guard (a JS empty string is falsy and is skipped); used by `validateFunction`
and `validateDefinition`. -/
def quoteErrorsGuardedAux (maxQuoteChars : Nat) (fieldName : Nat → String) :
    Nat → List String → List ValidationError
  | _, [] => []
  | i, fld :: rest =>
    (if fld ≠ "" ∧ hasExcessiveQuotes fld maxQuoteChars = true then
      [⟨fieldName i, quoteLengthMessage maxQuoteChars⟩]
    else []) ++ quoteErrorsGuardedAux maxQuoteChars fieldName (i + 1) rest

/-- Quote checks without a truthiness guard, as in `validateClaim`. -/
def quoteErrorsPlainAux (maxQuoteChars : Nat) (fieldName : Nat → String) :
    Nat → List String → List ValidationError
  | _, [] => []
  | i, fld :: rest =>
    (if hasExcessiveQuotes fld maxQuoteChars = true then
      [⟨fieldName i, quoteLengthMessage maxQuoteChars⟩]
    else []) ++ quoteErrorsPlainAux maxQuoteChars fieldName (i + 1) rest

/-- The fields `validateFunction` runs the quote guard over. -/
def functionQuoteFields (f : FunctionDoc) : List String :=
  [f.name, f.purpose] ++ f.preconditions ++ f.failure_modes

/-- Field name of the i-th quote error in `validateFunction`. -/
def functionQuoteFieldName (i : Nat) : String := "field[" ++ toString i ++ "]"

/-- Embedding of `validateFunction`. -/
def validateFunction (f : FunctionDoc) (config : Config) : ValidationResult :=
  let errors := nameErrors f ++ purposeErrors f ++ stepsErrors f ++
    spanIdErrors f.span_ids ++
    confidenceErrors f.confidence config.confidence.functions ++
    quoteErrorsGuardedAux config.maxQuoteChars functionQuoteFieldName 0
      (functionQuoteFields f)
  ⟨errors.isEmpty, errors⟩

/-- Field name of the i-th quote error in `validateClaim` (the source indexes
a fixed three-element name array). -/
def claimQuoteFieldName (i : Nat) : String :=
  (["subject", "predicate", "object"].getD i "")

/-- Subject-required check of `validateClaim`. -/
def claimSubjectErrors (c : Claim) : List ValidationError :=
  if jsBlank c.subject then [⟨"subject", "Claim subject is required"⟩] else []

/-- Predicate-required check of `validateClaim`. -/
def claimPredicateErrors (c : Claim) : List ValidationError :=
  if jsBlank c.predicate then [⟨"predicate", "Claim predicate is required"⟩]
  else []

/-- Object-required check of `validateClaim`. -/
def claimObjectErrors (c : Claim) : List ValidationError :=
  if jsBlank c.object then [⟨"object", "Claim object is required"⟩] else []

/-- Embedding of `validateClaim`. -/
def validateClaim (c : Claim) (config : Config) : ValidationResult :=
  let errors := claimSubjectErrors c ++ claimPredicateErrors c ++
    claimObjectErrors c ++ spanIdErrors c.span_ids ++
    confidenceErrors c.confidence config.confidence.claims ++
    quoteErrorsPlainAux config.maxQuoteChars claimQuoteFieldName 0
      [c.subject, c.predicate, c.object]
  ⟨errors.isEmpty, errors⟩

/-- Field name of the i-th quote error in `validateDefinition`. -/
def definitionQuoteFieldName (i : Nat) : String :=
  if i = 0 then "term"
  else if i = 1 then "definition"
  else "aliases[" ++ toString (i - 2) ++ "]"

/-- The fields `validateDefinition` runs the quote guard over. -/
def definitionQuoteFields (d : Definition) : List String :=
  [d.term, d.definition] ++ d.aliases

/-- Term checks of `validateDefinition`. -/
def termErrors (d : Definition) : List ValidationError :=
  if jsBlank d.term then [⟨"term", "Definition term is required"⟩]
  else if 120 < d.term.length then
    [⟨"term", "Term must be ≤ 120 characters"⟩]
  else []

/-- Definition-text-required check of `validateDefinition`. -/
def definitionTextErrors (d : Definition) : List ValidationError :=
  if jsBlank d.definition then [⟨"definition", "Definition text is required"⟩]
  else []

/-- Embedding of `validateDefinition`. -/
def validateDefinition (d : Definition) (config : Config) : ValidationResult :=
  let errors := termErrors d ++ definitionTextErrors d ++
    spanIdErrors d.span_ids ++
    confidenceErrors d.confidence config.confidence.definitions ++
    quoteErrorsGuardedAux config.maxQuoteChars definitionQuoteFieldName 0
      (definitionQuoteFields d)
  ⟨errors.isEmpty, errors⟩

/-- Configuration used for closed examples: zero thresholds, default quote
limit. -/
def exampleConfig : Config := ⟨⟨0, 0, 0⟩, 300⟩

/-- A function doc whose steps carry the given numbers, used for closed
examples. -/
def exampleFunc (ns : List Int) : FunctionDoc :=
  ⟨"Close the books", "Record entries", [],
    ns.map (fun k => ⟨k, "do the step"⟩), [], ["s1"], 1⟩

/-- A config with a tiny quote limit for closed examples. -/
def smallConfig : Config := ⟨⟨0, 0, 0⟩, 3⟩

/-- A function doc with an over-long quoted substring in a precondition. -/
def quoteFuncEx : FunctionDoc :=
  ⟨"Check balance", "Verify totals", ["say \"abcd\" now"],
    [⟨1, "do the step"⟩], [], ["s1"], 1⟩

/-! ## Span role classification (packages/parsers/src/pdf.ts) -/

/-- Embedding of the `SpanRole` union type. -/
inductive SpanRole where
  | heading
  | para
  | list
  | table
  | code
  | quote
  | figure
  | caption
deriving DecidableEq

/-- ASCII capital letter, the regex class `[A-Z]`. -/
def isAsciiUpper (c : Char) : Bool := 'A' ≤ c && c ≤ 'Z'

/-- ASCII small letter, the regex class `[a-z]`. -/
def isAsciiLower (c : Char) : Bool := 'a' ≤ c && c ≤ 'z'

/-- Decimal digit, the regex class `\d`. -/
def jsDigit (c : Char) : Bool := '0' ≤ c && c ≤ '9'

/-- Whitespace, the regex class `\s`, restricted to the whitespace characters
that occur in this repository's inputs (JS additionally treats some exotic
Unicode spaces as `\s`). -/
def jsSpace (c : Char) : Bool :=
  c == ' ' || c == '\t' || c == '\n' || c == '\r' ||
    c == Char.ofNat 11 || c == Char.ofNat 12 || c == Char.ofNat 160

/-- Consume one or more characters satisfying `p` (the regex `p+`); returns
the remainder, or fails when the first character does not satisfy `p`. -/
def dropWhile1 (p : Char → Bool) : List Char → Option (List Char)
  | [] => none
  | c :: rest => if p c then some (rest.dropWhile p) else none

/-- Whether `needle` occurs contiguously inside `hay`; JS
`String.prototype.includes`. -/
def containsSub (needle hay : List Char) : Bool :=
  (List.range (hay.length + 1)).any (fun i => needle.isPrefixOf (hay.drop i))

/-- Regex `/^\d+\.?\s+[A-Z]/`.  The optional dot cannot be matched by `\s+`,
so committing to it when present loses no match. -/
def headingNumberedPat (l : List Char) : Bool :=
  match dropWhile1 jsDigit l with
  | none => false
  | some l1 =>
    let l2 := match l1 with
      | '.' :: r => r
      | _ => l1
    match dropWhile1 jsSpace l2 with
    | none => false
    | some l3 =>
      match l3 with
      | c :: _ => isAsciiUpper c
      | [] => false

/-- Regex `/^[A-Z][A-Z\s]{5,}$/`. -/
def headingAllCapsPat (l : List Char) : Bool :=
  match l with
  | c :: rest =>
    isAsciiUpper c && decide (5 ≤ rest.length) &&
      rest.all (fun d => isAsciiUpper d || jsSpace d)
  | [] => false

/-- Regex `/^\d+\.\d+\.?\s+/`. -/
def headingDottedPat (l : List Char) : Bool :=
  match dropWhile1 jsDigit l with
  | none => false
  | some l1 =>
    match l1 with
    | '.' :: l2 =>
      match dropWhile1 jsDigit l2 with
      | none => false
      | some l3 =>
        let l4 := match l3 with
          | '.' :: r => r
          | _ => l3
        (dropWhile1 jsSpace l4).isSome
    | _ => false

/-- Case-insensitive start match of a keyword followed by `\s+\d+`; the
regexes `/^Chapter\s+\d+/i` and `/^Section\s+\d+/i` (and the caption
keywords) with `kw` given in lowercase. -/
def keywordNumberPat (kw : List Char) (l : List Char) : Bool :=
  if (l.take kw.length).map Char.toLower == kw then
    match dropWhile1 jsSpace (l.drop kw.length) with
    | none => false
    | some l2 =>
      match l2 with
      | c :: _ => jsDigit c
      | [] => false
  else false

/-- Regex `/^[A-Z][^.!?]*[^.!?]$/`: the greedy star and the end anchor force
every character after the capital through the negated class, and the final
mandatory `[^.!?]` forces at least one such character. -/
def headingTitleCasePat (l : List Char) : Bool :=
  match l with
  | c :: rest =>
    isAsciiUpper c && !rest.isEmpty &&
      rest.all (fun d => !(d == '.' || d == '!' || d == '?'))
  | [] => false

/-- Embedding of `isHeading` (PDF variant): length-capped at 200, then the
six heading patterns in source order. -/
def isHeading (text : String) : Bool :=
  if 200 < text.length then false
  else
    headingNumberedPat text.data || headingAllCapsPat text.data ||
      headingDottedPat text.data ||
      keywordNumberPat "chapter".data text.data ||
      keywordNumberPat "section".data text.data ||
      headingTitleCasePat text.data

/-- Regex `/^\s*[-•*]\s+/`. -/
def listBulletPat (l : List Char) : Bool :=
  match l.dropWhile jsSpace with
  | c :: rest =>
    (c == '-' || c == '•' || c == '*') && (dropWhile1 jsSpace rest).isSome
  | [] => false

/-- Regex `/^\s*\d+\.\s+/`. -/
def listNumberedPat (l : List Char) : Bool :=
  match dropWhile1 jsDigit (l.dropWhile jsSpace) with
  | none => false
  | some l1 =>
    match l1 with
    | '.' :: l2 => (dropWhile1 jsSpace l2).isSome
    | _ => false

/-- Regex `/^\s*\([a-z]\)\s+/`. -/
def listParenPat (l : List Char) : Bool :=
  match l.dropWhile jsSpace with
  | '(' :: c :: ')' :: rest => isAsciiLower c && (dropWhile1 jsSpace rest).isSome
  | _ => false

/-- Regex `/^\s*[a-z]\)\s+/`. -/
def listHalfParenPat (l : List Char) : Bool :=
  match l.dropWhile jsSpace with
  | c :: ')' :: rest => isAsciiLower c && (dropWhile1 jsSpace rest).isSome
  | _ => false

/-- Embedding of `isList`: the four list-marker patterns in source order. -/
def isList (text : String) : Bool :=
  listBulletPat text.data || listNumberedPat text.data ||
    listParenPat text.data || listHalfParenPat text.data

/-- Regex `/^\s*(function|class|def|var|let|const|import|export)/`. -/
def codeKeywordPat (l : List Char) : Bool :=
  (["function", "class", "def", "var", "let", "const", "import", "export"]).any
    (fun kw => kw.data.isPrefixOf (l.dropWhile jsSpace))

/-- Characters of the regex class `[{}();]`. -/
def codePunct (c : Char) : Bool :=
  c == '{' || c == '}' || c == '(' || c == ')' || c == ';'

/-- Characters matched by `.` without the dot-all flag (everything except
line terminators). -/
def dotChar (c : Char) : Bool :=
  !(c == '\n' || c == '\r' || c == Char.ofNat 0x2028 || c == Char.ofNat 0x2029)

/-- After an opening `[{}();]` occurrence: scan for a second one with only
dot-matchable characters in between. -/
def codePunctScan : List Char → Bool
  | [] => false
  | c :: rest =>
    if codePunct c then true
    else if !dotChar c then false
    else codePunctScan rest

/-- Regex `/[{}();].*[{}();]/` (unanchored): some `[{}();]` occurrence is
followed, with no line terminator in between, by another one. -/
def codePunctPairPat : List Char → Bool
  | [] => false
  | c :: rest =>
    if codePunct c then
      if codePunctScan rest then true else codePunctPairPat rest
    else codePunctPairPat rest

/-- Start character of the regex class `[A-Za-z_$]`. -/
def identStart (c : Char) : Bool :=
  isAsciiUpper c || isAsciiLower c || c == '_' || c == '$'

/-- Character of the regex class `[A-Za-z0-9_$]`. -/
def identChar (c : Char) : Bool := identStart c || jsDigit c

/-- Regex `/^\s*[A-Za-z_$][A-Za-z0-9_$]*\s*[:=]/`; the greedy identifier and
whitespace runs cannot consume the final `[:=]`, so maximal munch is safe. -/
def codeAssignPat (l : List Char) : Bool :=
  match l.dropWhile jsSpace with
  | c :: rest =>
    if identStart c then
      match (rest.dropWhile identChar).dropWhile jsSpace with
      | d :: _ => d == ':' || d == '='
      | [] => false
    else false
  | [] => false

/-- Embedding of `isCode`: the three code indicators in source order. -/
def isCode (text : String) : Bool :=
  codeKeywordPat text.data || codePunctPairPat text.data ||
    codeAssignPat text.data

/-- Head-character test backing `String.prototype.startsWith` on a
single-character argument. -/
def startsWithChar (c : Char) (l : List Char) : Bool :=
  match l with
  | d :: _ => d == c
  | [] => false

/-- Embedding of `isQuote`; all three quote literals in the source line are
the plain ASCII double quote. -/
def isQuote (text : String) : Bool :=
  startsWithChar '"' text.data || startsWithChar '"' text.data ||
    containsSub ['"'] text.data

/-- Count of maximal whitespace runs of length at least 3 (the separators
produced by `split(/\s{3,}/)`, which the greedy quantifier makes maximal),
with `run` the length of the current run. -/
def wsRuns3Aux : List Char → Nat → Nat
  | [], run => if 3 ≤ run then 1 else 0
  | c :: rest, run =>
    if jsSpace c then wsRuns3Aux rest (run + 1)
    else (if 3 ≤ run then 1 else 0) + wsRuns3Aux rest 0

/-- Count of maximal whitespace runs of length at least 3. -/
def wsRuns3 (l : List Char) : Nat := wsRuns3Aux l 0

/-- Embedding of `isTable`: `split('\t').length > 2` holds exactly when the
text has at least two tabs (likewise for `|`), and `split(/\s{3,}/).length`
is the number of long-whitespace separators plus one. -/
def isTable (text : String) : Bool :=
  decide (2 ≤ text.data.count '\t') || decide (2 ≤ text.data.count '|') ||
    (decide (1 ≤ wsRuns3 text.data) && decide (2 < wsRuns3 text.data + 1))

/-- Embedding of `isCaption`: `/^(Figure|Table|Chart|Diagram)\s+\d+/i` or a
case-insensitive `Caption:` start. -/
def isCaption (text : String) : Bool :=
  (["figure", "table", "chart", "diagram"]).any
      (fun kw => keywordNumberPat kw.data text.data) ||
    (text.data.take 8).map Char.toLower == "caption:".data

/-- Embedding of `isFigure`. -/
def isFigure (text : String) : Bool :=
  containsSub "Figure".data text.data && decide (text.length < 100)

/-- Embedding of `classifyTextRole` (PDF variant): lines shorter than 5
characters go straight to `para`; otherwise the ordered first-match chain of
role predicates with `para` as the default. -/
def classifyTextRole (text : String) : SpanRole :=
  if text.length < 5 then .para
  else if isHeading text then .heading
  else if isList text then .list
  else if isCode text then .code
  else if isQuote text then .quote
  else if isTable text then .table
  else if isCaption text then .caption
  else if isFigure text then .figure
  else .para

/-! ## Extraction windowing and the extractor runs
(packages/extractors/src/definitions.ts, formulas.ts) -/

/-- Embedding of the `Span` interface. -/
structure Span where
  id : String
  documentId : String
  page : Option Int
  start : Nat
  stop : Nat
  role : SpanRole
  text : String
  checksum : String
deriving DecidableEq

/-- Word character, the regex class `\w`. -/
def jsWordChar (c : Char) : Bool :=
  isAsciiUpper c || isAsciiLower c || jsDigit c || c == '_'

/-- Whether the span's lowercased text contains the cue. -/
def lowerHasSub (s : String) (needle : String) : Bool :=
  containsSub needle.data (s.data.map Char.toLower)

/-- Candidate predicate of `createDefinitionWindows`: a definitional cue
phrase in the lowercased text, or a heading. -/
def definitionCue (s : Span) : Bool :=
  lowerHasSub s.text " is " || lowerHasSub s.text " are " ||
    lowerHasSub s.text " means " || lowerHasSub s.text " refers to " ||
    lowerHasSub s.text " defined as " || s.role == SpanRole.heading

/-- Candidate predicate of `createFormulaWindows`: formulaic cue phrases only
(unlike the definition windower, headings are not candidates). -/
def formulaCue (s : Span) : Bool :=
  lowerHasSub s.text " = " || lowerHasSub s.text " equals " ||
    lowerHasSub s.text " calculated as " || lowerHasSub s.text " formula " ||
    lowerHasSub s.text " ratio " || lowerHasSub s.text " margin " ||
    lowerHasSub s.text " return " || lowerHasSub s.text "calculate" ||
    lowerHasSub s.text "compute"

/-- JS `Array.prototype.slice(a, b)` for non-negative in-range indices. -/
def listSlice {α : Type} (l : List α) (a b : Nat) : List α :=
  (l.drop a).take (b - a)

/-- Fixed-size chunk fallback (`for (i = 0; i < len; i += windowSize)`),
guarded against a zero size (the callers always pass positive sizes). -/
def chunksOf {α : Type} (w : Nat) : List α → List (List α)
  | [] => []
  | c :: rest =>
    if _h : w = 0 then []
    else (c :: rest).take w :: chunksOf w ((c :: rest).drop w)
termination_by l => l.length
decreasing_by
  simp only [List.length_drop, List.length_cons]
  omega

/-- Window around the candidate at index `idx`:
`spans.slice(Math.max(0, idx - 1), Math.min(spans.length, idx + windowSize - 1))`
(`Nat` subtraction realizes the clamp at zero). -/
def candidateWindow (spans : List Span) (windowSize idx : Nat) : List Span :=
  listSlice spans (idx - 1) (min spans.length (idx + windowSize - 1))

/-- Embedding of `createDefinitionWindows`; `spans.indexOf(candidate)` finds
the candidate's own index whenever the spans are pairwise distinct (span ids
are unique in practice). -/
def createDefinitionWindows (spans : List Span) (windowSize : Nat) :
    List (List Span) :=
  let definitionCandidates := spans.filter definitionCue
  if definitionCandidates = [] then chunksOf windowSize spans
  else definitionCandidates.map
    (fun c => candidateWindow spans windowSize (spans.indexOf c))

/-- Embedding of `createFormulaWindows` (identical slicing, different cue). -/
def createFormulaWindows (spans : List Span) (windowSize : Nat) :
    List (List Span) :=
  let formulaCandidates := spans.filter formulaCue
  if formulaCandidates = [] then chunksOf windowSize spans
  else formulaCandidates.map
    (fun c => candidateWindow spans windowSize (spans.indexOf c))

/-- Embedding of the `DefinitionDraft` schema shape: the model-supplied
fields (`term_slug`, `aliases_norm` are only produced later by enrichment;
`tags` is optional in the schema and read back as `def.tags || []`). -/
structure DefinitionDraft where
  term : String
  definition : String
  aliases : List String
  span_ids : List String
  confidence : ℚ
  tags : Option (List String)
deriving DecidableEq

/-- Replace each maximal whitespace run by one hyphen (the global
`replace(/\s+/g, '-')`); the flag records whether the scan is inside a run. -/
def hyphenateSpacesAux : List Char → Bool → List Char
  | [], _ => []
  | c :: rest, inRun =>
    if jsSpace c then
      if inRun then hyphenateSpacesAux rest true
      else '-' :: hyphenateSpacesAux rest true
    else c :: hyphenateSpacesAux rest false

/-- Embedding of `createTermSlug`: lowercase, drop characters outside
`[\w\s-]`, replace whitespace runs with hyphens (the trailing `trim` in the
source is a no-op because no whitespace survives the replacement). -/
def createTermSlug (term : String) : String :=
  ⟨hyphenateSpacesAux ((term.data.map Char.toLower).filter
    (fun c => jsWordChar c || jsSpace c || c == '-')) false⟩

/-- Replace each maximal whitespace run by one space (the global
`replace(/\s+/g, ' ')`). -/
def collapseSpacesAux : List Char → Bool → List Char
  | [], _ => []
  | c :: rest, inRun =>
    if jsSpace c then
      if inRun then collapseSpacesAux rest true
      else ' ' :: collapseSpacesAux rest true
    else c :: collapseSpacesAux rest false

/-- Remove leading and trailing whitespace. -/
def trimSpaces (l : List Char) : List Char :=
  ((l.dropWhile jsSpace).reverse.dropWhile jsSpace).reverse

/-- Embedding of the alias normalizer: lowercase, drop characters outside
`[\w\s]`, collapse whitespace runs to single spaces, trim. -/
def normalizeAlias (a : String) : String :=
  ⟨trimSpaces (collapseSpacesAux ((a.data.map Char.toLower).filter
    (fun c => jsWordChar c || jsSpace c)) false)⟩

/-- Embedding of `normalizeAliases`. -/
def normalizeAliases (aliases : List String) : List String :=
  aliases.map normalizeAlias

/-- The auto-tagging of `enrichDefinition`: append `financial-metrics` and
then `profitability` when the keyword tests fire and the tag is not already
present. -/
def enrichTags (d : DefinitionDraft) : List String :=
  let tags := d.tags.getD []
  let finHit := lowerHasSub d.term "profit" || lowerHasSub d.term "margin" ||
    lowerHasSub d.term "ratio" || lowerHasSub d.term "return" ||
    lowerHasSub d.definition "profit" || lowerHasSub d.definition "revenue" ||
    lowerHasSub d.definition "income" || lowerHasSub d.definition "asset"
  let tags2 := if finHit && !(tags.contains "financial-metrics") then
      tags ++ ["financial-metrics"]
    else tags
  let profHit := lowerHasSub d.term "margin" ||
    lowerHasSub d.term "profitability" ||
    lowerHasSub d.definition "profitability" ||
    lowerHasSub d.definition "profitable"
  if profHit && !(tags2.contains "profitability") then
    tags2 ++ ["profitability"]
  else tags2

/-- Embedding of `enrichDefinition`; the fresh `ulid()` is supplied as `id`
by the caller's id oracle. -/
def enrichDefinition (d : DefinitionDraft) (documentId : String)
    (id : String) : Definition :=
  ⟨id, documentId, d.term, d.definition, d.aliases, d.span_ids, d.confidence,
    createTermSlug d.term, normalizeAliases d.aliases, enrichTags d⟩

/-- Quality gates of the definition extractor's filter callback, in source
order: confidence threshold, span-id count in `[1, 3]`, definition length at
most 400. -/
def defGatePass (config : Config) (d : DefinitionDraft) : Bool :=
  if d.confidence < config.confidence.definitions then false
  else if d.span_ids.length < 1 ∨ 3 < d.span_ids.length then false
  else if 400 < d.definition.length then false
  else true

/-- The dedup key `${spans[0].documentId}:${termSlug}`. -/
def defDedupKey (documentId : String) (d : DefinitionDraft) : String :=
  documentId ++ ":" ++ createTermSlug d.term

/-- The filter callback of `extractDefinitions` over one window's drafts:
quality gates, then the seen-set check; the threaded list is the mutable
`seenDefinitions` set. -/
def filterWindowDrafts (config : Config) (documentId : String) :
    List DefinitionDraft → List String → List DefinitionDraft × List String
  | [], seen => ([], seen)
  | d :: rest, seen =>
    if defGatePass config d = false then
      filterWindowDrafts config documentId rest seen
    else if defDedupKey documentId d ∈ seen then
      filterWindowDrafts config documentId rest seen
    else
      let r := filterWindowDrafts config documentId rest
        (defDedupKey documentId d :: seen)
      (d :: r.1, r.2)

/-- Embedding of the `ExtractionResult` shape for definitions. -/
structure ExtractionResultD where
  units : List Definition
  errors : List String
  tokenCount : Nat
deriving DecidableEq

/-- The error string recorded for 0-based window index `i`:
`Window ${i + 1}: ${message}`. -/
def windowErrorMsg (i : Nat) (msg : String) : String :=
  "Window " ++ toString (i + 1) ++ ": " ++ msg

/-- Enrich surviving drafts in order, drawing ids from the oracle starting
at index `k`. -/
def enrichList (documentId : String) (ids : Nat → String) :
    List DefinitionDraft → Nat → List Definition
  | [], _ => []
  | d :: rest, k =>
    enrichDefinition d documentId (ids k) ::
      enrichList documentId ids rest (k + 1)

/-- The window loop of `extractDefinitions`: each window's outcome is either
the failure message of its model call / JSON parse / schema validation, or
the parsed drafts plus the reported token count; `i` is the window index,
`k` counts units already created (feeding the id oracle), `seen` is the
dedup set. -/
def runDefWindowsAux (config : Config) (documentId : String)
    (ids : Nat → String) :
    List (Except String (List DefinitionDraft × Nat)) → Nat → Nat →
      List String → ExtractionResultD
  | [], _, _, _ => ⟨[], [], 0⟩
  | Except.error msg :: rest, i, k, seen =>
    let r := runDefWindowsAux config documentId ids rest (i + 1) k seen
    ⟨r.units, windowErrorMsg i msg :: r.errors, r.tokenCount⟩
  | Except.ok (drafts, toks) :: rest, i, k, seen =>
    let fl := filterWindowDrafts config documentId drafts seen
    let r := runDefWindowsAux config documentId ids rest (i + 1)
      (k + fl.1.length) fl.2
    ⟨enrichList documentId ids fl.1 k ++ r.units, r.errors, toks + r.tokenCount⟩

/-- Embedding of `extractDefinitions` at the oracle boundary: the window
list is fixed by the spans, so the run folds over the per-window outcomes;
`documentId` is `spans[0].documentId` and `ids` supplies the `ulid()`
results in creation order. -/
def extractDefinitionsRun (config : Config) (documentId : String)
    (ids : Nat → String)
    (outcomes : List (Except String (List DefinitionDraft × Nat))) :
    ExtractionResultD :=
  runDefWindowsAux config documentId ids outcomes 0 0 []

/-- All drafts delivered by the successful windows, in processing order. -/
def successDrafts {α : Type} :
    List (Except String (List α × Nat)) → List α
  | [] => []
  | Except.error _ :: rest => successDrafts rest
  | Except.ok (ds, _) :: rest => ds ++ successDrafts rest

/-- A stamped function unit: the draft spread together with the fresh id and
the document id (`{...func, id, documentId}`). -/
structure FunctionUnit where
  id : String
  documentId : String
  name : String
  purpose : String
  preconditions : List String
  steps : List FunctionStep
  failure_modes : List String
  span_ids : List String
  confidence : ℚ
deriving DecidableEq

/-- Spread a draft into a stamped unit. -/
def stampFunction (f : FunctionDoc) (documentId id : String) : FunctionUnit :=
  ⟨id, documentId, f.name, f.purpose, f.preconditions, f.steps,
    f.failure_modes, f.span_ids, f.confidence⟩

/-- Embedding of the `ExtractionResult` shape for functions. -/
structure ExtractionResultF where
  units : List FunctionUnit
  errors : List String
  tokenCount : Nat
deriving DecidableEq

/-- Stamp drafts in order, drawing ids from the oracle starting at `k`. -/
def stampList (documentId : String) (ids : Nat → String) :
    List FunctionDoc → Nat → List FunctionUnit
  | [], _ => []
  | f :: rest, k =>
    stampFunction f documentId (ids k) :: stampList documentId ids rest (k + 1)

/-- The confidence filter of `extractFunctions`:
`func.confidence >= config.confidence.functions`. -/
def funcGate (config : Config) (f : FunctionDoc) : Bool :=
  config.confidence.functions ≤ f.confidence

/-- The window loop of `extractFunctions`: per window, keep the drafts with
`confidence >= config.confidence.functions` and stamp them; there is no seen
set and no dedup of any kind in this extractor. -/
def runFuncWindowsAux (config : Config) (documentId : String)
    (ids : Nat → String) :
    List (Except String (List FunctionDoc × Nat)) → Nat → Nat →
      ExtractionResultF
  | [], _, _ => ⟨[], [], 0⟩
  | Except.error msg :: rest, i, k =>
    let r := runFuncWindowsAux config documentId ids rest (i + 1) k
    ⟨r.units, windowErrorMsg i msg :: r.errors, r.tokenCount⟩
  | Except.ok (fs, toks) :: rest, i, k =>
    let valid := fs.filter (funcGate config)
    let r := runFuncWindowsAux config documentId ids rest (i + 1)
      (k + valid.length)
    ⟨stampList documentId ids valid k ++ r.units, r.errors,
      toks + r.tokenCount⟩

/-- Embedding of `extractFunctions` at the oracle boundary. -/
def extractFunctionsRun (config : Config) (documentId : String)
    (ids : Nat → String)
    (outcomes : List (Except String (List FunctionDoc × Nat))) :
    ExtractionResultF :=
  runFuncWindowsAux config documentId ids outcomes 0 0

/-- Concrete span constructor for closed examples. -/
def exSpanMk (id : String) (t : String) : Span :=
  ⟨id, "doc1", some 1, 0, 0, SpanRole.para, t, "ck"⟩

/-- Eight concrete spans; only `s2` is a definition candidate (its text
contains the cue phrase `is` between spaces) and only `s5` is a formula
candidate (its text contains an equals sign between spaces). -/
def exSpans : List Span :=
  [exSpanMk "s0" "alpha body", exSpanMk "s1" "beta body",
    exSpanMk "s2" "this is revenue", exSpanMk "s3" "gamma body",
    exSpanMk "s4" "delta body", exSpanMk "s5" "x = y",
    exSpanMk "s6" "epsilon body", exSpanMk "s7" "zeta body"]

/-- Constant id oracle for closed examples. -/
def exIds (_ : Nat) : String := "u"

/-- Draft definitions for the dedup counterexample: same term `Revenue`
(same slug), different confidences, span ids and aliases. -/
def draftD1 : DefinitionDraft :=
  ⟨"Revenue", "Income from sales", ["rev"], ["s1"], 0, none⟩

/-- Higher-confidence second draft with the same term slug. -/
def draftD2 : DefinitionDraft :=
  ⟨"Revenue", "Income from sales", ["turnover"], ["s2"], 1, none⟩

/-- Equal-confidence variant of `draftD1` for the exact-tie case. -/
def draftD3 : DefinitionDraft :=
  ⟨"Revenue", "Income from sales", ["rev"], ["s1"], 1, none⟩

/-- Draft function appearing identically in two windows. -/
def draftF : FunctionDoc :=
  ⟨"Compute margin", "Divide profit by revenue", [],
    [⟨1, "divide"⟩, ⟨2, "multiply"⟩], [], ["s1"], 1⟩

/-! ## Theorems -/

theorem mem_setDedupAux {α : Type} [DecidableEq α] (x : α) :
    ∀ (l seen : List α), x ∈ setDedupAux l seen ↔ x ∈ l ∧ x ∉ seen := by
  intro l
  induction l with
  | nil => intro seen; simp [setDedupAux]
  | cons y ys ih =>
    intro seen
    by_cases hy : y ∈ seen
    · rw [setDedupAux, if_pos hy, ih]
      constructor
      · rintro ⟨h1, h2⟩
        exact ⟨List.mem_cons_of_mem _ h1, h2⟩
      · rintro ⟨h1, h2⟩
        rcases List.mem_cons.mp h1 with rfl | h1
        · exact absurd hy h2
        · exact ⟨h1, h2⟩
    · rw [setDedupAux, if_neg hy]
      constructor
      · intro hmem
        rcases List.mem_cons.mp hmem with rfl | hmem
        · exact ⟨List.mem_cons_self _ _, hy⟩
        · obtain ⟨h1, h2⟩ := (ih _).mp hmem
          exact ⟨List.mem_cons_of_mem _ h1, fun hs => h2 (List.mem_cons_of_mem _ hs)⟩
      · rintro ⟨h1, h2⟩
        rcases List.mem_cons.mp h1 with rfl | h1
        · exact List.mem_cons_self _ _
        · by_cases hxy : x = y
          · subst hxy; exact List.mem_cons_self _ _
          · refine List.mem_cons_of_mem _ ((ih _).mpr ⟨h1, ?_⟩)
            intro hmem2
            rcases List.mem_cons.mp hmem2 with h3 | h3
            · exact hxy h3
            · exact h2 h3

theorem mem_setDedup {α : Type} [DecidableEq α] (x : α) (l : List α) :
    x ∈ setDedup l ↔ x ∈ l := by
  simp [setDedup, mem_setDedupAux]

theorem nodup_setDedupAux {α : Type} [DecidableEq α] :
    ∀ (l seen : List α), (setDedupAux l seen).Nodup := by
  intro l
  induction l with
  | nil => intro seen; simp [setDedupAux]
  | cons y ys ih =>
    intro seen
    by_cases hy : y ∈ seen
    · simpa [setDedupAux, if_pos hy] using ih seen
    · rw [setDedupAux, if_neg hy]
      refine List.nodup_cons.mpr ⟨?_, ih _⟩
      intro hmem
      exact ((mem_setDedupAux y ys (y :: seen)).mp hmem).2 (List.mem_cons_self y _)

theorem nodup_setDedup {α : Type} [DecidableEq α] (l : List α) :
    (setDedup l).Nodup := nodup_setDedupAux l []

theorem expandRange_self (p : Int) : expandRange ⟨p, p⟩ = [p] := by
  simp [expandRange, List.range_succ]

theorem expandRange_extend {s e : Int} (h : s ≤ e) :
    expandRange ⟨s, e + 1⟩ = expandRange ⟨s, e⟩ ++ [e + 1] := by
  have h1 : (e + 1 - s).toNat = (e - s).toNat + 1 := by omega
  rw [expandRange, expandRange]
  simp only [h1]
  rw [List.range_succ, List.map_append]
  congr 1
  simp only [List.map_cons, List.map_nil, List.cons.injEq, and_true]
  omega

theorem collapseAux_expand :
    ∀ (rest : List Int) (s e : Int), s ≤ e → List.Chain' (· < ·) (e :: rest) →
      expandRanges (collapseAux s e rest) = expandRange ⟨s, e⟩ ++ rest := by
  intro rest
  induction rest with
  | nil => intro s e _ _; simp [collapseAux, expandRanges]
  | cons p rest ih =>
    intro s e hse hchain
    have hep : e < p := (List.chain'_cons.mp hchain).1
    have hchain2 : List.Chain' (· < ·) (p :: rest) := (List.chain'_cons.mp hchain).2
    by_cases hp : p = e + 1
    · subst hp
      rw [collapseAux, if_pos rfl, ih s (e + 1) (by omega) hchain2,
        expandRange_extend hse]
      simp
    · rw [collapseAux, if_neg hp]
      have := ih p p le_rfl hchain2
      simp only [expandRanges, this, expandRange_self]
      simp

theorem collapseAux_wellFormed :
    ∀ (rest : List Int) (s e : Int), s ≤ e → List.Chain' (· < ·) (e :: rest) →
      ∀ r ∈ collapseAux s e rest, r.start ≤ r.stop := by
  intro rest
  induction rest with
  | nil => intro s e hse _; simp [collapseAux]; omega
  | cons p rest ih =>
    intro s e hse hchain
    have hep : e < p := (List.chain'_cons.mp hchain).1
    have hchain2 : List.Chain' (· < ·) (p :: rest) := (List.chain'_cons.mp hchain).2
    by_cases hp : p = e + 1
    · subst hp
      rw [collapseAux, if_pos rfl]
      exact ih s (e + 1) (by omega) hchain2
    · rw [collapseAux, if_neg hp]
      intro r hr
      rcases List.mem_cons.mp hr with rfl | hr
      · exact hse
      · exact ih p p le_rfl hchain2 r hr

theorem collapseAux_gap :
    ∀ (rest : List Int) (s e : Int), List.Chain' (· < ·) (e :: rest) →
      List.Chain' (fun a b => a.stop + 1 < b.start) (collapseAux s e rest) ∧
        ∃ e2 tl, collapseAux s e rest = ⟨s, e2⟩ :: tl ∧ e ≤ e2 := by
  intro rest
  induction rest with
  | nil => intro s e _; exact ⟨by simp [collapseAux], e, [], rfl, le_rfl⟩
  | cons p rest ih =>
    intro s e hchain
    have hep : e < p := (List.chain'_cons.mp hchain).1
    have hchain2 : List.Chain' (· < ·) (p :: rest) := (List.chain'_cons.mp hchain).2
    by_cases hp : p = e + 1
    · subst hp
      rw [collapseAux, if_pos rfl]
      obtain ⟨hc, e2, tl, heq, he2⟩ := ih s (e + 1) hchain2
      exact ⟨hc, e2, tl, heq, by omega⟩
    · rw [collapseAux, if_neg hp]
      obtain ⟨hc, e2, tl, heq, he2⟩ := ih p p hchain2
      refine ⟨?_, e, collapseAux p p rest, rfl, le_rfl⟩
      rw [heq] at hc ⊢
      refine List.chain'_cons.mpr ⟨?_, hc⟩
      show e + 1 < p
      omega

/-- C4: for every strictly increasing integer sequence, `collapsePageRanges`
returns well-formed (`start ≤ stop`) ranges that are pairwise disjoint and
non-adjacent (each range's `stop + 1` is strictly below the next range's
`start`), whose concatenated expansion reproduces exactly the input sequence;
concretely `[12,13,14,16]` yields the ranges `(12,14)` and `(16,16)`. -/
theorem collapsePageRanges_exact_cover (pages : List Int)
    (h : List.Chain' (· < ·) pages) :
    expandRanges (collapsePageRanges pages) = pages ∧
    (∀ r ∈ collapsePageRanges pages, r.start ≤ r.stop) ∧
    List.Chain' (fun a b => a.stop + 1 < b.start) (collapsePageRanges pages) ∧
    collapsePageRanges [12, 13, 14, 16] = [⟨12, 14⟩, ⟨16, 16⟩] := by
  refine ⟨?_, ?_, ?_, by decide⟩
  · cases pages with
    | nil => rfl
    | cons p rest =>
      rw [collapsePageRanges, collapseAux_expand rest p p le_rfl h,
        expandRange_self]
      rfl
  · cases pages with
    | nil => simp [collapsePageRanges]
    | cons p rest => exact collapseAux_wellFormed rest p p le_rfl h
  · cases pages with
    | nil => simp [collapsePageRanges]
    | cons p rest => exact (collapseAux_gap rest p p h).1

/-- Witness for C4 at the spec's canonical fixture. -/
theorem collapsePageRanges_exact_cover_witness :
    List.Chain' (· < ·) ([12, 13, 14, 16] : List Int) ∧
      expandRanges (collapsePageRanges [12, 13, 14, 16]) = [12, 13, 14, 16] := by
  have h : List.Chain' (· < ·) ([12, 13, 14, 16] : List Int) := by
    simp [List.chain'_cons]
  exact ⟨h, (collapsePageRanges_exact_cover _ h).1⟩

/-- C3: `formatCitations` groups citations by title in first-appearance
order, each group's pages are deduplicated and sorted ascending and are
exactly the pages cited under that title, and the canonical example renders
to the exact expected string. -/
theorem formatCitations_grouping :
    (∀ cs : List SpanCitation,
      (groupSpansByTitle cs).map (·.title) = setDedup (cs.map (·.title))) ∧
    (∀ cs : List SpanCitation, ∀ g ∈ groupSpansByTitle cs,
      List.Sorted (· ≤ ·) g.pages ∧ g.pages.Nodup ∧
      (∀ p : Int, p ∈ g.pages ↔ ∃ c ∈ cs, c.title = g.title ∧ c.page = p)) ∧
    formatCitations [⟨"x1", "A", 12⟩, ⟨"x2", "B", 5⟩, ⟨"x3", "A", 14⟩] =
      "\"A\" p.12, p.14; \"B\" p.5" := by
  refine ⟨?_, ?_, by decide⟩
  · intro cs
    rw [groupSpansByTitle, List.map_map]
    have hid : ∀ l : List String,
        List.map ((fun g : CitationGroup => g.title) ∘ fun t =>
          (⟨t, List.insertionSort (· ≤ ·)
            (setDedup (pagesOfTitle cs t))⟩ : CitationGroup)) l = l := by
      intro l
      induction l with
      | nil => rfl
      | cons a l ih => simpa using ih
    exact hid _
  · intro cs g hg
    obtain ⟨t, ht, rfl⟩ := List.mem_map.mp hg
    refine ⟨List.sorted_insertionSort _ _, ?_, ?_⟩
    · exact (List.perm_insertionSort _ _).nodup_iff.mpr (nodup_setDedup _)
    · intro p
      rw [show (CitationGroup.mk t
          (List.insertionSort (· ≤ ·) (setDedup (pagesOfTitle cs t)))).pages =
          List.insertionSort (· ≤ ·) (setDedup (pagesOfTitle cs t)) from rfl,
        (List.perm_insertionSort _ _).mem_iff, mem_setDedup]
      simp [pagesOfTitle, List.mem_filter]
      constructor
      · rintro ⟨c, ⟨hc, hct⟩, hp⟩
        exact ⟨c, hc, by simpa using hct, hp⟩
      · rintro ⟨c, hc, hct, hp⟩
        exact ⟨c, ⟨hc, by simpa using hct⟩, hp⟩

/-- Witness for C3: the group for title A in the canonical example, with its
pages sorted ascending. -/
theorem formatCitations_grouping_witness :
    (⟨"A", [12, 14]⟩ : CitationGroup) ∈
        groupSpansByTitle [⟨"x1", "A", 12⟩, ⟨"x2", "B", 5⟩, ⟨"x3", "A", 14⟩] ∧
      List.Sorted (· ≤ ·) ([12, 14] : List Int) := by
  have hmem : (⟨"A", [12, 14]⟩ : CitationGroup) ∈
      groupSpansByTitle [⟨"x1", "A", 12⟩, ⟨"x2", "B", 5⟩, ⟨"x3", "A", 14⟩] := by
    decide
  exact ⟨hmem, (formatCitations_grouping.2.1 _ _ hmem).1⟩

theorem quotedRunsAux_ge_two :
    ∀ (l : List Char) (k : Nat) (L : Nat), 1 ≤ k →
      (L ∈ quotedRunsAux l none → 2 ≤ L) ∧
        (L ∈ quotedRunsAux l (some k) → 2 ≤ L) := by
  intro l
  induction l with
  | nil => intro k L _; exact ⟨by simp [quotedRunsAux], by simp [quotedRunsAux]⟩
  | cons c rest ih =>
    intro k L hk
    constructor
    · intro h
      rw [quotedRunsAux] at h
      split at h
      · exact (ih 1 L le_rfl).2 h
      · exact (ih 1 L le_rfl).1 h
    · intro h
      rw [quotedRunsAux] at h
      split at h
      · rcases List.mem_cons.mp h with rfl | h2
        · omega
        · exact (ih 1 L le_rfl).1 h2
      · exact (ih (k + 1) L (by omega)).2 h

theorem quotedRuns_ge_two (l : List Char) (L : Nat) (h : L ∈ quotedRuns l) :
    2 ≤ L := (quotedRunsAux_ge_two l 1 L le_rfl).1 h

theorem quotedRunsAux_inside_nil :
    ∀ (l : List Char) (k : Nat), l.count '"' = 0 →
      quotedRunsAux l (some k) = [] := by
  intro l
  induction l with
  | nil => intro k _; rfl
  | cons c rest ih =>
    intro k h
    by_cases hc : c = '"'
    · subst hc
      simp [List.count_cons] at h
    · rw [quotedRunsAux, if_neg hc]
      refine ih (k + 1) ?_
      simpa [List.count_cons, hc] using h

theorem quotedRuns_nil_of_count_le_one :
    ∀ l : List Char, l.count '"' ≤ 1 → quotedRuns l = [] := by
  intro l
  rw [quotedRuns]
  induction l with
  | nil => intro _; rfl
  | cons c rest ih =>
    intro h
    by_cases hc : c = '"'
    · subst hc
      rw [quotedRunsAux, if_pos rfl]
      have hrest : rest.count '"' = 0 := by
        simp [List.count_cons] at h
        omega
      exact quotedRunsAux_inside_nil rest 1 hrest
    · rw [quotedRunsAux, if_neg hc]
      refine ih ?_
      rw [List.count_cons] at h
      split at h <;> omega

theorem quoteLengthMessage_take (n : Nat) :
    (quoteLengthMessage n).data.take 4 = ['T', 'e', 'x', 't'] := by
  rw [quoteLengthMessage]
  simp only [String.data_append]
  rfl

theorem confidenceMessage_take (c t : ℚ) :
    (confidenceMessage c t).data.take 4 = ['C', 'o', 'n', 'f'] := by
  rw [confidenceMessage]
  simp only [String.data_append]
  rfl

/-- A string whose first four characters differ from `Text` is not a
quote-length message, whatever limit is interpolated into the latter. -/
theorem ne_quoteLengthMessage (n : Nat) (s : String)
    (hs : s.data.take 4 ≠ ['T', 'e', 'x', 't']) :
    s ≠ quoteLengthMessage n := by
  intro he
  exact hs (by rw [he, quoteLengthMessage_take])

theorem confidenceMessage_ne_quote (c t : ℚ) (n : Nat) :
    confidenceMessage c t ≠ quoteLengthMessage n := by
  refine ne_quoteLengthMessage n _ ?_
  rw [confidenceMessage_take]
  decide

theorem mem_nameErrors {f : FunctionDoc} {e : ValidationError}
    (h : e ∈ nameErrors f) : e = ⟨"name", "Function name is required"⟩ := by
  rw [nameErrors] at h
  split at h
  · simpa using h
  · simp at h

theorem mem_purposeErrors {f : FunctionDoc} {e : ValidationError}
    (h : e ∈ purposeErrors f) :
    e = ⟨"purpose", "Function purpose is required"⟩ ∨
      e = ⟨"purpose", "Purpose must be ≤ 400 characters"⟩ := by
  rw [purposeErrors] at h
  split at h
  · exact Or.inl (by simpa using h)
  · split at h
    · exact Or.inr (by simpa using h)
    · simp at h

theorem mem_stepTextErrorsAux {e : ValidationError} :
    ∀ (i : Nat) (steps : List FunctionStep), e ∈ stepTextErrorsAux i steps →
      ∃ j : Nat,
        e = ⟨"steps[" ++ toString j ++ "].text", "Step text cannot be empty"⟩ := by
  intro i steps
  induction steps generalizing i with
  | nil => intro h; simp [stepTextErrorsAux] at h
  | cons s rest ih =>
    intro h
    rw [stepTextErrorsAux] at h
    rcases List.mem_append.mp h with h1 | h1
    · split at h1
      · exact ⟨i, by simpa using h1⟩
      · simp at h1
    · exact ih (i + 1) h1

theorem mem_stepsErrors {f : FunctionDoc} {e : ValidationError}
    (h : e ∈ stepsErrors f) :
    e = ⟨"steps", "At least one step is required"⟩ ∨
      e = ⟨"steps", stepNumberMessage⟩ ∨
      ∃ j : Nat,
        e = ⟨"steps[" ++ toString j ++ "].text", "Step text cannot be empty"⟩ := by
  rw [stepsErrors] at h
  split at h
  · exact Or.inl (by simpa using h)
  · rcases List.mem_append.mp h with h1 | h1
    · split at h1
      · simp at h1
      · exact Or.inr (Or.inl (by simpa using h1))
    · exact Or.inr (Or.inr (mem_stepTextErrorsAux _ _ h1))

theorem mem_spanIdErrors {ids : List String} {e : ValidationError}
    (h : e ∈ spanIdErrors ids) :
    e = ⟨"span_ids", "At least one span_id is required for citations"⟩ := by
  rw [spanIdErrors] at h
  split at h
  · simpa using h
  · simp at h

theorem mem_confidenceErrors {c t : ℚ} {e : ValidationError}
    (h : e ∈ confidenceErrors c t) :
    e = ⟨"confidence", confidenceMessage c t⟩ := by
  rw [confidenceErrors] at h
  split at h
  · simpa using h
  · simp at h

theorem mem_quoteErrorsGuardedAux {maxQ : Nat} {fn : Nat → String}
    {e : ValidationError} :
    ∀ (i : Nat) (flds : List String), e ∈ quoteErrorsGuardedAux maxQ fn i flds →
      e.message = quoteLengthMessage maxQ ∧
        ∃ fld ∈ flds, fld ≠ "" ∧ hasExcessiveQuotes fld maxQ = true := by
  intro i flds
  induction flds generalizing i with
  | nil => intro h; simp [quoteErrorsGuardedAux] at h
  | cons fld rest ih =>
    intro h
    rw [quoteErrorsGuardedAux] at h
    rcases List.mem_append.mp h with h1 | h1
    · split at h1
      case isTrue hcond =>
        have he : e = ⟨fn i, quoteLengthMessage maxQ⟩ := by simpa using h1
        exact ⟨by rw [he], fld, List.mem_cons_self _ _, hcond⟩
      case isFalse => simp at h1
    · obtain ⟨hmsg, fld2, hf2, hcond⟩ := ih (i + 1) h1
      exact ⟨hmsg, fld2, List.mem_cons_of_mem _ hf2, hcond⟩

theorem quoteErrorsGuardedAux_exists {maxQ : Nat} {fn : Nat → String} :
    ∀ (i : Nat) (flds : List String),
      (∃ fld ∈ flds, fld ≠ "" ∧ hasExcessiveQuotes fld maxQ = true) →
      ∃ e ∈ quoteErrorsGuardedAux maxQ fn i flds,
        e.message = quoteLengthMessage maxQ := by
  intro i flds
  induction flds generalizing i with
  | nil => rintro ⟨fld, hmem, _⟩; simp at hmem
  | cons fld rest ih =>
    rintro ⟨fld2, hmem, hcond⟩
    rw [quoteErrorsGuardedAux]
    rcases List.mem_cons.mp hmem with rfl | h2
    · refine ⟨⟨fn i, quoteLengthMessage maxQ⟩, ?_, rfl⟩
      refine List.mem_append.mpr (Or.inl ?_)
      rw [if_pos hcond]
      exact List.mem_cons_self _ _
    · obtain ⟨e, he, hmsg⟩ := ih (i + 1) ⟨fld2, h2, hcond⟩
      exact ⟨e, List.mem_append.mpr (Or.inr he), hmsg⟩

theorem mem_quoteErrorsPlainAux {maxQ : Nat} {fn : Nat → String}
    {e : ValidationError} :
    ∀ (i : Nat) (flds : List String), e ∈ quoteErrorsPlainAux maxQ fn i flds →
      e.message = quoteLengthMessage maxQ ∧
        ∃ fld ∈ flds, hasExcessiveQuotes fld maxQ = true := by
  intro i flds
  induction flds generalizing i with
  | nil => intro h; simp [quoteErrorsPlainAux] at h
  | cons fld rest ih =>
    intro h
    rw [quoteErrorsPlainAux] at h
    rcases List.mem_append.mp h with h1 | h1
    · split at h1
      case isTrue hcond =>
        have he : e = ⟨fn i, quoteLengthMessage maxQ⟩ := by simpa using h1
        exact ⟨by rw [he], fld, List.mem_cons_self _ _, hcond⟩
      case isFalse => simp at h1
    · obtain ⟨hmsg, fld2, hf2, hcond⟩ := ih (i + 1) h1
      exact ⟨hmsg, fld2, List.mem_cons_of_mem _ hf2, hcond⟩

theorem quoteErrorsPlainAux_exists {maxQ : Nat} {fn : Nat → String} :
    ∀ (i : Nat) (flds : List String),
      (∃ fld ∈ flds, hasExcessiveQuotes fld maxQ = true) →
      ∃ e ∈ quoteErrorsPlainAux maxQ fn i flds,
        e.message = quoteLengthMessage maxQ := by
  intro i flds
  induction flds generalizing i with
  | nil => rintro ⟨fld, hmem, _⟩; simp at hmem
  | cons fld rest ih =>
    rintro ⟨fld2, hmem, hcond⟩
    rw [quoteErrorsPlainAux]
    rcases List.mem_cons.mp hmem with rfl | h2
    · refine ⟨⟨fn i, quoteLengthMessage maxQ⟩, ?_, rfl⟩
      refine List.mem_append.mpr (Or.inl ?_)
      rw [if_pos hcond]
      exact List.mem_cons_self _ _
    · obtain ⟨e, he, hmsg⟩ := ih (i + 1) ⟨fld2, h2, hcond⟩
      exact ⟨e, List.mem_append.mpr (Or.inr he), hmsg⟩

theorem mem_claimSubjectErrors {c : Claim} {e : ValidationError}
    (h : e ∈ claimSubjectErrors c) :
    e = ⟨"subject", "Claim subject is required"⟩ := by
  rw [claimSubjectErrors] at h
  split at h
  · simpa using h
  · simp at h

theorem mem_claimPredicateErrors {c : Claim} {e : ValidationError}
    (h : e ∈ claimPredicateErrors c) :
    e = ⟨"predicate", "Claim predicate is required"⟩ := by
  rw [claimPredicateErrors] at h
  split at h
  · simpa using h
  · simp at h

theorem mem_claimObjectErrors {c : Claim} {e : ValidationError}
    (h : e ∈ claimObjectErrors c) :
    e = ⟨"object", "Claim object is required"⟩ := by
  rw [claimObjectErrors] at h
  split at h
  · simpa using h
  · simp at h

theorem mem_termErrors {d : Definition} {e : ValidationError}
    (h : e ∈ termErrors d) :
    e = ⟨"term", "Definition term is required"⟩ ∨
      e = ⟨"term", "Term must be ≤ 120 characters"⟩ := by
  rw [termErrors] at h
  split at h
  · exact Or.inl (by simpa using h)
  · split at h
    · exact Or.inr (by simpa using h)
    · simp at h

theorem mem_definitionTextErrors {d : Definition} {e : ValidationError}
    (h : e ∈ definitionTextErrors d) :
    e = ⟨"definition", "Definition text is required"⟩ := by
  rw [definitionTextErrors] at h
  split at h
  · simpa using h
  · simp at h

/-- Quote-length errors of `validateFunction` occur exactly when some checked
field trips the guard. -/
theorem validateFunction_quoteErr_iff (f : FunctionDoc) (config : Config) :
    (∃ e ∈ (validateFunction f config).errors,
      e.message = quoteLengthMessage config.maxQuoteChars) ↔
    ∃ fld ∈ functionQuoteFields f, fld ≠ "" ∧
      hasExcessiveQuotes fld config.maxQuoteChars = true := by
  constructor
  · rintro ⟨e, hmem, hmsg⟩
    simp only [validateFunction, List.mem_append] at hmem
    rcases hmem with ((((h1 | h1) | h1) | h1) | h1) | h1
    · rw [mem_nameErrors h1] at hmsg
      exact absurd hmsg
        (ne_quoteLengthMessage _ "Function name is required" (by decide))
    · rcases mem_purposeErrors h1 with he | he
      · rw [he] at hmsg
        exact absurd hmsg
          (ne_quoteLengthMessage _ "Function purpose is required" (by decide))
      · rw [he] at hmsg
        exact absurd hmsg
          (ne_quoteLengthMessage _ "Purpose must be ≤ 400 characters" (by decide))
    · rcases mem_stepsErrors h1 with he | he | ⟨j, he⟩
      · rw [he] at hmsg
        exact absurd hmsg
          (ne_quoteLengthMessage _ "At least one step is required" (by decide))
      · rw [he] at hmsg
        exact absurd hmsg
          (ne_quoteLengthMessage _ stepNumberMessage (by decide))
      · rw [he] at hmsg
        exact absurd hmsg
          (ne_quoteLengthMessage _ "Step text cannot be empty" (by decide))
    · rw [mem_spanIdErrors h1] at hmsg
      exact absurd hmsg (ne_quoteLengthMessage _
        "At least one span_id is required for citations" (by decide))
    · rw [mem_confidenceErrors h1] at hmsg
      exact absurd hmsg (confidenceMessage_ne_quote _ _ _)
    · exact (mem_quoteErrorsGuardedAux _ _ h1).2
  · intro hex
    obtain ⟨e, he, hmsg⟩ :=
      @quoteErrorsGuardedAux_exists config.maxQuoteChars functionQuoteFieldName 0 _ hex
    refine ⟨e, ?_, hmsg⟩
    simp only [validateFunction, List.mem_append]
    exact Or.inr he

/-- Quote-length errors of `validateClaim` occur exactly when some checked
field trips the guard. -/
theorem validateClaim_quoteErr_iff (c : Claim) (config : Config) :
    (∃ e ∈ (validateClaim c config).errors,
      e.message = quoteLengthMessage config.maxQuoteChars) ↔
    ∃ fld ∈ [c.subject, c.predicate, c.object],
      hasExcessiveQuotes fld config.maxQuoteChars = true := by
  constructor
  · rintro ⟨e, hmem, hmsg⟩
    simp only [validateClaim, List.mem_append] at hmem
    rcases hmem with ((((h1 | h1) | h1) | h1) | h1) | h1
    · rw [mem_claimSubjectErrors h1] at hmsg
      exact absurd hmsg
        (ne_quoteLengthMessage _ "Claim subject is required" (by decide))
    · rw [mem_claimPredicateErrors h1] at hmsg
      exact absurd hmsg
        (ne_quoteLengthMessage _ "Claim predicate is required" (by decide))
    · rw [mem_claimObjectErrors h1] at hmsg
      exact absurd hmsg
        (ne_quoteLengthMessage _ "Claim object is required" (by decide))
    · rw [mem_spanIdErrors h1] at hmsg
      exact absurd hmsg (ne_quoteLengthMessage _
        "At least one span_id is required for citations" (by decide))
    · rw [mem_confidenceErrors h1] at hmsg
      exact absurd hmsg (confidenceMessage_ne_quote _ _ _)
    · exact (mem_quoteErrorsPlainAux _ _ h1).2
  · intro hex
    obtain ⟨e, he, hmsg⟩ :=
      @quoteErrorsPlainAux_exists config.maxQuoteChars claimQuoteFieldName 0 _ hex
    refine ⟨e, ?_, hmsg⟩
    simp only [validateClaim, List.mem_append]
    exact Or.inr he

/-- Quote-length errors of `validateDefinition` occur exactly when some
checked field trips the guard. -/
theorem validateDefinition_quoteErr_iff (d : Definition) (config : Config) :
    (∃ e ∈ (validateDefinition d config).errors,
      e.message = quoteLengthMessage config.maxQuoteChars) ↔
    ∃ fld ∈ definitionQuoteFields d, fld ≠ "" ∧
      hasExcessiveQuotes fld config.maxQuoteChars = true := by
  constructor
  · rintro ⟨e, hmem, hmsg⟩
    simp only [validateDefinition, List.mem_append] at hmem
    rcases hmem with (((h1 | h1) | h1) | h1) | h1
    · rcases mem_termErrors h1 with he | he
      · rw [he] at hmsg
        exact absurd hmsg
          (ne_quoteLengthMessage _ "Definition term is required" (by decide))
      · rw [he] at hmsg
        exact absurd hmsg
          (ne_quoteLengthMessage _ "Term must be ≤ 120 characters" (by decide))
    · rw [mem_definitionTextErrors h1] at hmsg
      exact absurd hmsg
        (ne_quoteLengthMessage _ "Definition text is required" (by decide))
    · rw [mem_spanIdErrors h1] at hmsg
      exact absurd hmsg (ne_quoteLengthMessage _
        "At least one span_id is required for citations" (by decide))
    · rw [mem_confidenceErrors h1] at hmsg
      exact absurd hmsg (confidenceMessage_ne_quote _ _ _)
    · exact (mem_quoteErrorsGuardedAux _ _ h1).2
  · intro hex
    obtain ⟨e, he, hmsg⟩ :=
      @quoteErrorsGuardedAux_exists config.maxQuoteChars definitionQuoteFieldName 0 _ hex
    refine ⟨e, ?_, hmsg⟩
    simp only [validateDefinition, List.mem_append]
    exact Or.inr he

theorem stepTextField_ne_steps (j : Nat) :
    ("steps[" ++ toString j ++ "].text") ≠ "steps" := by
  intro h
  have h1 : ("steps" : String).data.take 6 = ['s', 't', 'e', 'p', 's'] := rfl
  have h2 : ("steps[" ++ toString j ++ "].text").data.take 6 =
      ['s', 't', 'e', 'p', 's', '['] := by
    simp only [String.data_append]
    rfl
  rw [h, h1] at h2
  exact absurd h2 (by decide)

/-- C5: for any function doc with non-empty steps, `validateFunction` reports
a step-numbering error on the `steps` field exactly when the sorted `n`
values differ from `[1, ..., N]`; in particular step numbers `[1,3,5]` and
`[1,2,2]` each produce an error on the `steps` field. -/
theorem validateFunction_step_numbering (f : FunctionDoc) (config : Config)
    (h : f.steps ≠ []) :
    ((∃ e ∈ (validateFunction f config).errors,
        e.field = "steps" ∧ e.message = stepNumberMessage) ↔
      sortedStepNumbers f ≠ expectedStepNumbers f) ∧
    (∃ e ∈ (validateFunction (exampleFunc [1, 3, 5]) exampleConfig).errors,
      e.field = "steps") ∧
    (∃ e ∈ (validateFunction (exampleFunc [1, 2, 2]) exampleConfig).errors,
      e.field = "steps") := by
  refine ⟨?_, by decide, by decide⟩
  constructor
  · rintro ⟨e, hmem, hfld, hmsg⟩ heq
    simp only [validateFunction, List.mem_append] at hmem
    rcases hmem with ((((h1 | h1) | h1) | h1) | h1) | h1
    · rw [mem_nameErrors h1] at hfld
      exact absurd hfld (by decide)
    · rcases mem_purposeErrors h1 with he | he <;> rw [he] at hfld <;>
        exact absurd hfld (by decide)
    · rw [stepsErrors, if_neg h] at h1
      rcases List.mem_append.mp h1 with h2 | h2
      · rw [if_pos heq] at h2
        simp at h2
      · obtain ⟨j, hj⟩ := mem_stepTextErrorsAux _ _ h2
        rw [hj] at hfld
        exact stepTextField_ne_steps j hfld
    · rw [mem_spanIdErrors h1] at hfld
      exact absurd hfld (by decide)
    · rw [mem_confidenceErrors h1] at hfld
      exact absurd (show ("confidence" : String) = "steps" from hfld) (by decide)
    · have := (mem_quoteErrorsGuardedAux _ _ h1).1
      rw [hmsg] at this
      exact (ne_quoteLengthMessage _ stepNumberMessage (by decide)) this
  · intro hne
    refine ⟨⟨"steps", stepNumberMessage⟩, ?_, rfl, rfl⟩
    simp only [validateFunction, List.mem_append]
    refine Or.inl (Or.inl (Or.inl (Or.inr ?_)))
    rw [stepsErrors, if_neg h]
    refine List.mem_append.mpr (Or.inl ?_)
    rw [if_neg hne]
    exact List.mem_cons_self _ _

/-- Witness for C5: a doc whose steps arrive out of order as `[2,1,3]` passes
the step-numbering check. -/
theorem validateFunction_step_numbering_witness :
    (exampleFunc [2, 1, 3]).steps ≠ [] ∧
      ¬∃ e ∈ (validateFunction (exampleFunc [2, 1, 3]) exampleConfig).errors,
        e.field = "steps" ∧ e.message = stepNumberMessage := by
  have h : (exampleFunc [2, 1, 3]).steps ≠ [] := by decide
  refine ⟨h, ?_⟩
  intro hex
  exact absurd (by decide :
      sortedStepNumbers (exampleFunc [2, 1, 3]) =
        expectedStepNumbers (exampleFunc [2, 1, 3]))
    ((validateFunction_step_numbering (exampleFunc [2, 1, 3])
      exampleConfig h).1.mp hex)

/-- C8: `validateFunction` reports a quote-length error exactly when some
checked field has a quoted substring strictly longer than `maxQuoteChars`
(so a field whose longest quoted substring is exactly at the limit passes),
and the guard is precisely the some-run-exceeds-the-limit test. -/
theorem validateFunction_quote_length_guard (f : FunctionDoc)
    (config : Config) :
    ((∃ e ∈ (validateFunction f config).errors,
        e.message = quoteLengthMessage config.maxQuoteChars) ↔
      ∃ fld ∈ functionQuoteFields f, fld ≠ "" ∧
        hasExcessiveQuotes fld config.maxQuoteChars = true) ∧
    (∀ text : String, hasExcessiveQuotes text config.maxQuoteChars = true ↔
      ∃ L ∈ quotedRuns text.data, config.maxQuoteChars < L) ∧
    (∀ text : String,
      (∀ L ∈ quotedRuns text.data, L ≤ config.maxQuoteChars) →
      hasExcessiveQuotes text config.maxQuoteChars = false) := by
  refine ⟨validateFunction_quoteErr_iff f config, ?_, ?_⟩
  · intro text
    simp [hasExcessiveQuotes, List.any_eq_true]
  · intro text hall
    rw [hasExcessiveQuotes]
    rw [List.any_eq_false]
    intro L hL
    simpa using hall L hL

/-- Witness for C8: the over-long quote in `quoteFuncEx` is reported. -/
theorem validateFunction_quote_length_guard_witness :
    ∃ e ∈ (validateFunction quoteFuncEx smallConfig).errors,
      e.message = quoteLengthMessage smallConfig.maxQuoteChars :=
  (validateFunction_quote_length_guard quoteFuncEx smallConfig).1.mpr
    ⟨"say \"abcd\" now", by decide, by decide, by decide⟩

/-- C10: a text containing at most one double quote produces no quoted run at
all, so the shared guard reports nothing regardless of length; every measured
run includes its two delimiters (length at least 2); and each of the three
validators reports no quote-length error when all its checked fields contain
at most one double quote. -/
theorem quote_guard_unpaired_quote :
    (∀ l : List Char, l.count '"' ≤ 1 → quotedRuns l = []) ∧
    (∀ (text : String) (maxQ : Nat), text.data.count '"' ≤ 1 →
      hasExcessiveQuotes text maxQ = false) ∧
    (∀ (l : List Char) (L : Nat), L ∈ quotedRuns l → 2 ≤ L) ∧
    (∀ (f : FunctionDoc) (config : Config),
      (∀ fld ∈ functionQuoteFields f, fld.data.count '"' ≤ 1) →
      ¬∃ e ∈ (validateFunction f config).errors,
        e.message = quoteLengthMessage config.maxQuoteChars) ∧
    (∀ (c : Claim) (config : Config),
      (∀ fld ∈ [c.subject, c.predicate, c.object], fld.data.count '"' ≤ 1) →
      ¬∃ e ∈ (validateClaim c config).errors,
        e.message = quoteLengthMessage config.maxQuoteChars) ∧
    (∀ (d : Definition) (config : Config),
      (∀ fld ∈ definitionQuoteFields d, fld.data.count '"' ≤ 1) →
      ¬∃ e ∈ (validateDefinition d config).errors,
        e.message = quoteLengthMessage config.maxQuoteChars) := by
  have hfalse : ∀ (text : String) (maxQ : Nat), text.data.count '"' ≤ 1 →
      hasExcessiveQuotes text maxQ = false := by
    intro text maxQ hcount
    rw [hasExcessiveQuotes, quotedRuns_nil_of_count_le_one _ hcount]
    rfl
  refine ⟨quotedRuns_nil_of_count_le_one, hfalse, quotedRuns_ge_two,
    ?_, ?_, ?_⟩
  · intro f config hcount hex
    obtain ⟨fld, hf, _, hq⟩ := (validateFunction_quoteErr_iff f config).mp hex
    rw [hfalse fld config.maxQuoteChars (hcount fld hf)] at hq
    exact absurd hq (by decide)
  · intro c config hcount hex
    obtain ⟨fld, hf, hq⟩ := (validateClaim_quoteErr_iff c config).mp hex
    rw [hfalse fld config.maxQuoteChars (hcount fld hf)] at hq
    exact absurd hq (by decide)
  · intro d config hcount hex
    obtain ⟨fld, hf, _, hq⟩ := (validateDefinition_quoteErr_iff d config).mp hex
    rw [hfalse fld config.maxQuoteChars (hcount fld hf)] at hq
    exact absurd hq (by decide)

/-- Witness for C10: a long text with a single unpaired double quote passes
even with a zero quote limit. -/
theorem quote_guard_unpaired_quote_witness :
    hasExcessiveQuotes "He said \"do not stop and keep going" 0 = false :=
  quote_guard_unpaired_quote.2.1 "He said \"do not stop and keep going" 0
    (by decide)

/-- C6: any line of at least 5 characters matching both the heading and the
list predicates classifies as `heading` (heading precedes list in the
first-match chain); a non-empty line matching no predicate classifies as
`para`; and the line `1. Revenue` matches both predicates yet classifies as
`heading`. -/
theorem classifyTextRole_heading_precedence :
    (∀ text : String, 5 ≤ text.length → isHeading text = true →
      isList text = true → classifyTextRole text = SpanRole.heading) ∧
    (∀ text : String, text ≠ "" → isHeading text = false →
      isList text = false → isCode text = false → isQuote text = false →
      isTable text = false → isCaption text = false → isFigure text = false →
      classifyTextRole text = SpanRole.para) ∧
    (isHeading "1. Revenue" = true ∧ isList "1. Revenue" = true ∧
      classifyTextRole "1. Revenue" = SpanRole.heading) := by
  refine ⟨?_, ?_, by decide, by decide, by decide⟩
  · intro text h5 hh _
    rw [classifyTextRole, if_neg (by omega), if_pos (by rw [hh])]
  · intro text _ hh hl hc hq ht hcap hf
    rw [classifyTextRole]
    split
    · rfl
    · simp [hh, hl, hc, hq, ht, hcap, hf]

/-- Witness for C6 at the spec's tie-break fixture `1. Revenue`. -/
theorem classifyTextRole_heading_precedence_witness :
    5 ≤ ("1. Revenue" : String).length ∧
      classifyTextRole "1. Revenue" = SpanRole.heading := by
  have h5 : 5 ≤ ("1. Revenue" : String).length := by decide
  exact ⟨h5, classifyTextRole_heading_precedence.1 "1. Revenue" h5
    (by decide) (by decide)⟩

/-- C9 counterexample: for `exSpans` (one definition candidate, at index 2)
and window size 6 the single emitted window holds the spans at indices 1
through 6 — one span before the candidate through `windowSize − 2 = 4` spans
after it — so the claimed reach of `windowSize − 1 = 5` spans after the
candidate fails: the span at index `2 + 5 = 7` is not in the window. -/
theorem createDefinitionWindows_counterexample :
    createDefinitionWindows exSpans 6 =
      [[exSpanMk "s1" "beta body", exSpanMk "s2" "this is revenue",
        exSpanMk "s3" "gamma body", exSpanMk "s4" "delta body",
        exSpanMk "s5" "x = y", exSpanMk "s6" "epsilon body"]] ∧
    (∀ w ∈ createDefinitionWindows exSpans 6,
      exSpanMk "s7" "zeta body" ∉ w) ∧
    exSpans.filter definitionCue = [exSpanMk "s2" "this is revenue"] ∧
    exSpans.indexOf (exSpanMk "s2" "this is revenue") = 2 := by
  decide

/-- C9 amended: with a positive window size and at least one candidate, each
windower emits exactly one window per candidate, and the window around an
interior candidate index `i` (`1 ≤ i`, `i + windowSize − 1 ≤ length`) has
exactly `windowSize` spans: those at indices `i − 1` (one span before the
candidate) through `i + windowSize − 2` (`windowSize − 2` spans after it),
the slice's exclusive end index being `i + windowSize − 1`. -/
theorem candidateWindow_geometry (spans : List Span) (w i : Nat)
    (hw : 1 ≤ w) (hi : 1 ≤ i) (hend : i + w - 1 ≤ spans.length)
    (hdef : spans.filter definitionCue ≠ [])
    (hform : spans.filter formulaCue ≠ []) :
    (createDefinitionWindows spans w).length =
        (spans.filter definitionCue).length ∧
    (createFormulaWindows spans w).length =
        (spans.filter formulaCue).length ∧
    (candidateWindow spans w i).length = w ∧
    (∀ j, j < w → (candidateWindow spans w i)[j]? = spans[i - 1 + j]?) := by
  refine ⟨?_, ?_, ?_, ?_⟩
  · simp [createDefinitionWindows, hdef]
  · simp [createFormulaWindows, hform]
  · rw [candidateWindow, listSlice, min_eq_right hend, List.length_take,
      List.length_drop]
    omega
  · intro j hj
    rw [candidateWindow, listSlice, min_eq_right hend]
    have hjlt : j < i + w - 1 - (i - 1) := by omega
    rw [List.getElem?_take_of_lt hjlt, List.getElem?_drop]

/-- Witness for C9's amended geometry at `exSpans`, candidate index 2,
window size 6. -/
theorem candidateWindow_geometry_witness :
    (candidateWindow exSpans 6 2).length = 6 ∧
      (createDefinitionWindows exSpans 6).length = 1 := by
  have h := candidateWindow_geometry exSpans 6 2 (by decide) (by decide)
    (by decide) (by decide) (by decide)
  refine ⟨h.2.2.1, ?_⟩
  rw [h.1]
  decide

theorem runDefWindowsAux_index_irrel (config : Config) (documentId : String)
    (ids : Nat → String) :
    ∀ (outcomes : List (Except String (List DefinitionDraft × Nat)))
      (i i' k : Nat) (seen : List String),
      (runDefWindowsAux config documentId ids outcomes i k seen).units =
        (runDefWindowsAux config documentId ids outcomes i' k seen).units ∧
      (runDefWindowsAux config documentId ids outcomes i k seen).errors.length =
        (runDefWindowsAux config documentId ids outcomes i' k seen).errors.length ∧
      (runDefWindowsAux config documentId ids outcomes i k seen).tokenCount =
        (runDefWindowsAux config documentId ids outcomes i' k seen).tokenCount := by
  intro outcomes
  induction outcomes with
  | nil => intro i i' k seen; exact ⟨rfl, rfl, rfl⟩
  | cons x rest ih =>
    intro i i' k seen
    cases x with
    | error msg =>
      obtain ⟨h1, h2, h3⟩ := ih (i + 1) (i' + 1) k seen
      exact ⟨h1, by simp only [runDefWindowsAux, List.length_cons, h2],
        h3⟩
    | ok p =>
      obtain ⟨ds, toks⟩ := p
      obtain ⟨h1, h2, h3⟩ := ih (i + 1) (i' + 1)
        (k + (filterWindowDrafts config documentId ds seen).1.length)
        (filterWindowDrafts config documentId ds seen).2
      exact ⟨by simp only [runDefWindowsAux, h1],
        by simp only [runDefWindowsAux, h2],
        by simp only [runDefWindowsAux, h3]⟩

theorem runDefWindowsAux_insert_error (config : Config) (documentId : String)
    (ids : Nat → String) (m : String) :
    ∀ (xs ys : List (Except String (List DefinitionDraft × Nat)))
      (i k : Nat) (seen : List String),
      (runDefWindowsAux config documentId ids
          (xs ++ Except.error m :: ys) i k seen).units =
        (runDefWindowsAux config documentId ids (xs ++ ys) i k seen).units ∧
      (runDefWindowsAux config documentId ids
          (xs ++ Except.error m :: ys) i k seen).errors.length =
        (runDefWindowsAux config documentId ids
          (xs ++ ys) i k seen).errors.length + 1 ∧
      windowErrorMsg (i + xs.length) m ∈
        (runDefWindowsAux config documentId ids
          (xs ++ Except.error m :: ys) i k seen).errors ∧
      (runDefWindowsAux config documentId ids
          (xs ++ Except.error m :: ys) i k seen).tokenCount =
        (runDefWindowsAux config documentId ids (xs ++ ys) i k seen).tokenCount := by
  intro xs
  induction xs with
  | nil =>
    intro ys i k seen
    obtain ⟨h1, h2, h3⟩ :=
      runDefWindowsAux_index_irrel config documentId ids ys (i + 1) i k seen
    refine ⟨h1, ?_, ?_, h3⟩
    · simp only [List.nil_append, runDefWindowsAux, List.length_cons, h2]
    · simp only [List.nil_append, runDefWindowsAux, List.length_nil,
        Nat.add_zero]
      exact List.mem_cons_self _ _
  | cons x rest ih =>
    intro ys i k seen
    cases x with
    | error msg =>
      obtain ⟨h1, h2, h3, h4⟩ := ih ys (i + 1) k seen
      refine ⟨h1, ?_, ?_, h4⟩
      · simp only [List.cons_append, runDefWindowsAux, List.append_eq, List.length_cons]
        omega
      · simp only [List.cons_append, runDefWindowsAux, List.append_eq, List.length_cons]
        have harg : i + (rest.length + 1) = i + 1 + rest.length := by omega
        rw [harg]
        exact List.mem_cons_of_mem _ h3
    | ok p =>
      obtain ⟨ds, toks⟩ := p
      obtain ⟨h1, h2, h3, h4⟩ := ih ys (i + 1)
        (k + (filterWindowDrafts config documentId ds seen).1.length)
        (filterWindowDrafts config documentId ds seen).2
      refine ⟨?_, ?_, ?_, ?_⟩
      · simp only [List.cons_append, runDefWindowsAux, List.append_eq]
        rw [h1]
      · simp only [List.cons_append, runDefWindowsAux, List.append_eq]
        omega
      · simp only [List.cons_append, runDefWindowsAux, List.append_eq, List.length_cons]
        have harg : i + (rest.length + 1) = i + 1 + rest.length := by omega
        rw [harg]
        exact h3
      · simp only [List.cons_append, runDefWindowsAux, List.append_eq]
        rw [h4]

/-- C7: a window whose model call, JSON parse or schema validation throws
contributes exactly one error message (naming its 1-based window index) and
nothing else: the run's units and token count are exactly those of the run
without the failing window, so no single window's failure aborts or affects
the rest of the document's extraction. -/
theorem extraction_window_isolation (config : Config) (documentId : String)
    (ids : Nat → String) (m : String)
    (xs ys : List (Except String (List DefinitionDraft × Nat))) :
    (extractDefinitionsRun config documentId ids
        (xs ++ Except.error m :: ys)).units =
      (extractDefinitionsRun config documentId ids (xs ++ ys)).units ∧
    (extractDefinitionsRun config documentId ids
        (xs ++ Except.error m :: ys)).errors.length =
      (extractDefinitionsRun config documentId ids (xs ++ ys)).errors.length
        + 1 ∧
    windowErrorMsg xs.length m ∈
      (extractDefinitionsRun config documentId ids
        (xs ++ Except.error m :: ys)).errors ∧
    (extractDefinitionsRun config documentId ids
        (xs ++ Except.error m :: ys)).tokenCount =
      (extractDefinitionsRun config documentId ids (xs ++ ys)).tokenCount := by
  have h := runDefWindowsAux_insert_error config documentId ids m xs ys 0 0 []
  simpa [extractDefinitionsRun] using h

theorem filterWindowDrafts_append (config : Config) (documentId : String) :
    ∀ (a b : List DefinitionDraft) (seen : List String),
      filterWindowDrafts config documentId (a ++ b) seen =
        ((filterWindowDrafts config documentId a seen).1 ++
          (filterWindowDrafts config documentId b
            (filterWindowDrafts config documentId a seen).2).1,
         (filterWindowDrafts config documentId b
            (filterWindowDrafts config documentId a seen).2).2) := by
  intro a
  induction a with
  | nil => intro b seen; simp [filterWindowDrafts]
  | cons d rest ih =>
    intro b seen
    cases hgp : defGatePass config d with
    | false => simp [filterWindowDrafts, hgp, ih]
    | true =>
      by_cases hk : defDedupKey documentId d ∈ seen
      · simp [filterWindowDrafts, hgp, hk, ih]
      · simp [filterWindowDrafts, hgp, hk, ih]

theorem enrichList_append (documentId : String) (ids : Nat → String) :
    ∀ (a b : List DefinitionDraft) (k : Nat),
      enrichList documentId ids (a ++ b) k =
        enrichList documentId ids a k ++
          enrichList documentId ids b (k + a.length) := by
  intro a
  induction a with
  | nil => intro b k; simp [enrichList]
  | cons d rest ih =>
    intro b k
    simp only [List.cons_append, enrichList, List.append_eq, ih,
      List.length_cons, List.cons.injEq, true_and]
    rw [show k + 1 + rest.length = k + (rest.length + 1) from by omega]

theorem runDefWindowsAux_units_eq (config : Config) (documentId : String)
    (ids : Nat → String) :
    ∀ (outcomes : List (Except String (List DefinitionDraft × Nat)))
      (i k : Nat) (seen : List String),
      (runDefWindowsAux config documentId ids outcomes i k seen).units =
        enrichList documentId ids
          (filterWindowDrafts config documentId
            (successDrafts outcomes) seen).1 k := by
  intro outcomes
  induction outcomes with
  | nil =>
    intro i k seen
    simp [runDefWindowsAux, successDrafts, filterWindowDrafts, enrichList]
  | cons x rest ih =>
    intro i k seen
    cases x with
    | error msg => simpa [runDefWindowsAux, successDrafts] using ih (i + 1) k seen
    | ok p =>
      obtain ⟨ds, toks⟩ := p
      simp only [runDefWindowsAux, successDrafts]
      rw [ih (i + 1) _ _,
        filterWindowDrafts_append config documentId ds (successDrafts rest) seen,
        enrichList_append]

theorem filterWindowDrafts_sound (config : Config) (documentId : String) :
    ∀ (drafts : List DefinitionDraft) (seen : List String),
      ((filterWindowDrafts config documentId drafts seen).1.map
        (defDedupKey documentId)).Nodup ∧
      ∀ d ∈ (filterWindowDrafts config documentId drafts seen).1,
        defDedupKey documentId d ∉ seen ∧ d ∈ drafts ∧
          defGatePass config d = true := by
  intro drafts
  induction drafts with
  | nil => intro seen; simp [filterWindowDrafts]
  | cons d rest ih =>
    intro seen
    cases hgp : defGatePass config d with
    | false =>
      obtain ⟨hn, hm⟩ := ih seen
      rw [filterWindowDrafts, if_pos (by rw [hgp])]
      exact ⟨hn, fun d2 hd2 =>
        ⟨(hm d2 hd2).1, List.mem_cons_of_mem _ (hm d2 hd2).2.1, (hm d2 hd2).2.2⟩⟩
    | true =>
      by_cases hk : defDedupKey documentId d ∈ seen
      · obtain ⟨hn, hm⟩ := ih seen
        rw [filterWindowDrafts, if_neg (by rw [hgp]; simp), if_pos hk]
        exact ⟨hn, fun d2 hd2 =>
          ⟨(hm d2 hd2).1, List.mem_cons_of_mem _ (hm d2 hd2).2.1, (hm d2 hd2).2.2⟩⟩
      · obtain ⟨hn, hm⟩ := ih (defDedupKey documentId d :: seen)
        rw [filterWindowDrafts, if_neg (by rw [hgp]; simp), if_neg hk]
        refine ⟨?_, ?_⟩
        · refine List.nodup_cons.mpr ⟨?_, hn⟩
          intro hmem
          obtain ⟨d2, hd2, hkey⟩ := List.mem_map.mp hmem
          exact (hm d2 hd2).1 (by rw [hkey]; exact List.mem_cons_self _ _)
        · intro d2 hd2
          rcases List.mem_cons.mp hd2 with rfl | hd2
          · exact ⟨hk, List.mem_cons_self _ _, hgp⟩
          · refine ⟨?_, List.mem_cons_of_mem _ (hm d2 hd2).2.1, (hm d2 hd2).2.2⟩
            intro hs
            exact (hm d2 hd2).1 (List.mem_cons_of_mem _ hs)

theorem enrichList_map_key (documentId : String) (ids : Nat → String) :
    ∀ (ds : List DefinitionDraft) (k : Nat),
      (enrichList documentId ids ds k).map
        (fun u => u.documentId ++ ":" ++ u.term_slug) =
        ds.map (defDedupKey documentId) := by
  intro ds
  induction ds with
  | nil => intro k; rfl
  | cons d rest ih =>
    intro k
    simp [enrichList, enrichDefinition, defDedupKey, ih]

theorem enrichList_mem (documentId : String) (ids : Nat → String) :
    ∀ (ds : List DefinitionDraft) (k : Nat) (u : Definition),
      u ∈ enrichList documentId ids ds k →
      ∃ d ∈ ds, u.span_ids = d.span_ids ∧ u.aliases = d.aliases ∧
        u.confidence = d.confidence := by
  intro ds
  induction ds with
  | nil => intro k u h; simp [enrichList] at h
  | cons d rest ih =>
    intro k u h
    rw [enrichList] at h
    rcases List.mem_cons.mp h with rfl | h2
    · exact ⟨d, List.mem_cons_self _ _, rfl, rfl, rfl⟩
    · obtain ⟨d2, hd2, hs⟩ := ih (k + 1) u h2
      exact ⟨d2, List.mem_cons_of_mem _ hd2, hs⟩

/-- C1 amended: deduplication keeps the first-seen gate-passing record per
`(documentId, term_slug)` key regardless of confidence — the run equals a
single first-wins filter pass over the concatenated successful drafts — so
the output units carry pairwise distinct keys and each unit's `span_ids`,
`aliases` and `confidence` come verbatim from its one source draft: no
confidence comparison and no union of span_ids or aliases takes place. -/
theorem definition_dedup_first_wins (config : Config) (documentId : String)
    (ids : Nat → String)
    (outcomes : List (Except String (List DefinitionDraft × Nat))) :
    (extractDefinitionsRun config documentId ids outcomes).units =
      enrichList documentId ids
        (filterWindowDrafts config documentId
          (successDrafts outcomes) []).1 0 ∧
    ((extractDefinitionsRun config documentId ids outcomes).units.map
      (fun u => u.documentId ++ ":" ++ u.term_slug)).Nodup ∧
    ∀ u ∈ (extractDefinitionsRun config documentId ids outcomes).units,
      ∃ d ∈ successDrafts outcomes, defGatePass config d = true ∧
        u.span_ids = d.span_ids ∧ u.aliases = d.aliases ∧
        u.confidence = d.confidence := by
  have hu : (extractDefinitionsRun config documentId ids outcomes).units =
      enrichList documentId ids
        (filterWindowDrafts config documentId
          (successDrafts outcomes) []).1 0 :=
    runDefWindowsAux_units_eq config documentId ids outcomes 0 0 []
  refine ⟨hu, ?_, ?_⟩
  · rw [hu, enrichList_map_key]
    exact (filterWindowDrafts_sound config documentId
      (successDrafts outcomes) []).1
  · intro u humem
    rw [hu] at humem
    obtain ⟨d, hd, hs, ha, hc⟩ := enrichList_mem documentId ids _ 0 u humem
    obtain ⟨_, hdm, hg⟩ := (filterWindowDrafts_sound config documentId
      (successDrafts outcomes) []).2 d hd
    exact ⟨d, hdm, hg, hs, ha, hc⟩

/-- C1 counterexample: two gate-passing drafts with the same term slug where
the second has strictly higher confidence (1 versus 0) leave a single unit
with confidence 0, span ids `[s1]` and aliases `[rev]` — the extractor keeps
the first-seen, lower-confidence record and discards the other; and on an
exact confidence tie the kept unit again carries the first draft's span ids
and aliases verbatim, not the union of both drafts' values. -/
theorem definition_dedup_counterexample :
    ((extractDefinitionsRun exampleConfig "doc1" exIds
        [Except.ok ([draftD1, draftD2], 0)]).units.map (·.confidence) =
      [0] ∧ draftD2.confidence = 1) ∧
    ((extractDefinitionsRun exampleConfig "doc1" exIds
        [Except.ok ([draftD3, draftD2], 0)]).units.map (·.span_ids) =
        [["s1"]] ∧
      (extractDefinitionsRun exampleConfig "doc1" exIds
        [Except.ok ([draftD3, draftD2], 0)]).units.map (·.aliases) =
        [["rev"]]) := by
  decide

theorem stampList_append (documentId : String) (ids : Nat → String) :
    ∀ (a b : List FunctionDoc) (k : Nat),
      stampList documentId ids (a ++ b) k =
        stampList documentId ids a k ++
          stampList documentId ids b (k + a.length) := by
  intro a
  induction a with
  | nil => intro b k; simp [stampList]
  | cons f rest ih =>
    intro b k
    simp only [List.cons_append, stampList, List.append_eq, ih,
      List.length_cons, List.cons.injEq, true_and]
    rw [show k + 1 + rest.length = k + (rest.length + 1) from by omega]

theorem stampList_length (documentId : String) (ids : Nat → String) :
    ∀ (ds : List FunctionDoc) (k : Nat),
      (stampList documentId ids ds k).length = ds.length := by
  intro ds
  induction ds with
  | nil => intro k; rfl
  | cons f rest ih => intro k; simp [stampList, ih]

theorem runFuncWindowsAux_units_eq (config : Config) (documentId : String)
    (ids : Nat → String) :
    ∀ (outcomes : List (Except String (List FunctionDoc × Nat))) (i k : Nat),
      (runFuncWindowsAux config documentId ids outcomes i k).units =
        stampList documentId ids
          ((successDrafts outcomes).filter (funcGate config)) k := by
  intro outcomes
  induction outcomes with
  | nil => intro i k; simp [runFuncWindowsAux, successDrafts, stampList]
  | cons x rest ih =>
    intro i k
    cases x with
    | error msg =>
      simpa [runFuncWindowsAux, successDrafts] using ih (i + 1) k
    | ok p =>
      obtain ⟨ds, toks⟩ := p
      simp only [runFuncWindowsAux, successDrafts]
      rw [ih (i + 1) _, List.filter_append, stampList_append]

/-- C2 amended: `extractFunctions` performs no deduplication at all — its
units are exactly the concatenated confidence-passing drafts of the
successful windows, stamped with fresh ids in order, none dropped; hence two
windows each yielding an identical (name, steps) draft produce two units
with the same `(documentId, name, sha256(JSON(steps))[0:16])` dedup key. -/
theorem function_extraction_no_dedup (config : Config) (documentId : String)
    (ids : Nat → String)
    (outcomes : List (Except String (List FunctionDoc × Nat))) :
    (extractFunctionsRun config documentId ids outcomes).units =
      stampList documentId ids
        ((successDrafts outcomes).filter (funcGate config)) 0 ∧
    (extractFunctionsRun config documentId ids outcomes).units.length =
      ((successDrafts outcomes).filter (funcGate config)).length := by
  have h : (extractFunctionsRun config documentId ids outcomes).units =
      stampList documentId ids
        ((successDrafts outcomes).filter (funcGate config)) 0 :=
    runFuncWindowsAux_units_eq config documentId ids outcomes 0 0
  exact ⟨h, by rw [h, stampList_length]⟩

/-- C2 counterexample: with two windows each delivering the identical draft
(same name, same steps, confidence above threshold), the returned units
contain two entries with the same `(documentId, name, steps)` triple — and
the dedup key is a function of exactly that triple, so they share the key,
refuting that the returned units never contain two function units with the
same key. -/
theorem function_dedup_counterexample :
    (extractFunctionsRun exampleConfig "doc1" exIds
        [Except.ok ([draftF], 0), Except.ok ([draftF], 0)]).units.map
      (fun u => (u.documentId, u.name, u.steps)) =
      [("doc1", "Compute margin", [⟨1, "divide"⟩, ⟨2, "multiply"⟩]),
        ("doc1", "Compute margin", [⟨1, "divide"⟩, ⟨2, "multiply"⟩])] := by
  decide
